import Mathlib

/-!
Verification of the QRFS on-disk storage engine (block-structured filesystem
over a folder of fixed-size block files).  The Lean definitions below are a
shallow embedding of the Rust sources:

* `src/src/fs.rs`       — disk records, bitmap allocator, read/write paths
* `src/src/bin/mkfs_qrfs.rs` — layout planner, fresh-filesystem initialisation,
                               record serialisation (`struct_to_bytes`)
* `src/src/bin/fsck/fsck.rs`, `fsck_types.rs`, `fsck_backend.rs` — the fsck
  validation passes and their backend capability.

Machine integers (`u16`/`u32`/`u64`) are modelled as `Nat`; the arithmetic in
the embedded code paths never overflows for in-range values, and bounds appear
as explicit hypotheses where a theorem needs them.  Byte buffers are
`List Nat`.  Fallible operations return `Option`/`Except`.
-/

namespace QRFS

/-! Constants from `src/src/fs.rs`. -/

def QRFS_BLOCK_SIZE : Nat := 1024

def QRFS_MAGIC : Nat := 0x51524653

def QRFS_VERSION : Nat := 1

def QRFS_NAME_LEN : Nat := 56

/-! # Disk records and their byte codec

`SuperblockDisk` and `InodeDisk` are `repr(C)` structs in `fs.rs`.  Their
layouts have no implicit interior padding (all fields naturally aligned), so
`struct_to_bytes` (mkfs_qrfs.rs) is the concatenation of the little-endian
encodings of the fields, and the `read_unaligned` decode used by
`mount_from_folder` and `load_inode_disk` reads the fields back in order. -/

structure SuperblockDisk where
  magic : Nat
  version : Nat
  block_size : Nat
  total_blocks : Nat
  inode_table_start : Nat
  inode_table_blocks : Nat
  free_bitmap_start : Nat
  free_bitmap_blocks : Nat
  data_blocks_start : Nat
  max_inodes : Nat
  root_inode : Nat
  free_blocks : Nat
  free_inodes : Nat
  reserved : List Nat
  deriving Repr, DecidableEq

structure InodeDisk where
  id : Nat
  file_type : Nat
  perm : Nat
  uid : Nat
  gid : Nat
  size : Nat
  atime : Nat
  mtime : Nat
  ctime : Nat
  nlink : Nat
  direct_blocks : List Nat
  indirect_block : Nat
  double_indirect_block : Nat
  _padding : Nat
  deriving Repr, DecidableEq

/-- Byte size of the `repr(C)` `InodeDisk` struct (112 bytes, no padding). -/
def INODE_DISK_SIZE : Nat := 112

/-- Byte size of the `repr(C)` `SuperblockDisk` struct (116 bytes). -/
def SUPERBLOCK_DISK_SIZE : Nat := 116

/-- Little-endian encoding of `n` into `k` bytes (memcpy of a `k`-byte field). -/
def toLE : Nat → Nat → List Nat
  | 0, _ => []
  | k + 1, n => n % 256 :: toLE k (n / 256)

/-- Little-endian read of a byte buffer (`read_unaligned` of a field). -/
def fromLE : List Nat → Nat
  | [] => 0
  | b :: bs => b + 256 * fromLE bs

theorem toLE_length (k n : Nat) : (toLE k n).length = k := by
  induction k generalizing n with
  | zero => rfl
  | succ k ih => simp [toLE, ih]

theorem fromLE_toLE (k n : Nat) : fromLE (toLE k n) = n % 256 ^ k := by
  induction k generalizing n with
  | zero => simp [toLE, fromLE, Nat.mod_one]
  | succ k ih =>
      simp only [toLE, fromLE, ih]
      rw [pow_succ, mul_comm (256 ^ k) 256, Nat.mod_mul]

@[simp]
theorem take_toLE (w a : Nat) (rest : List Nat) :
    (toLE w a ++ rest).take w = toLE w a := by
  rw [List.take_left' (toLE_length w a)]

@[simp]
theorem drop_toLE (w a : Nat) (rest : List Nat) :
    (toLE w a ++ rest).drop w = rest := by
  rw [List.drop_left' (toLE_length w a)]

@[simp]
theorem take_toLE_self (w a : Nat) : (toLE w a).take w = toLE w a :=
  List.take_of_length_le (by rw [toLE_length])

/-- `struct_to_bytes` for the superblock: fields in declaration order,
little-endian, then the 64 reserved bytes verbatim. -/
def encodeSuperblock (sb : SuperblockDisk) : List Nat :=
  toLE 4 sb.magic ++ toLE 4 sb.version ++ toLE 4 sb.block_size ++
  toLE 4 sb.total_blocks ++ toLE 4 sb.inode_table_start ++
  toLE 4 sb.inode_table_blocks ++ toLE 4 sb.free_bitmap_start ++
  toLE 4 sb.free_bitmap_blocks ++ toLE 4 sb.data_blocks_start ++
  toLE 4 sb.max_inodes ++ toLE 4 sb.root_inode ++ toLE 4 sb.free_blocks ++
  toLE 4 sb.free_inodes ++ sb.reserved

/-- `read_unaligned::<SuperblockDisk>` on a byte buffer: the fields are read
back in layout order. -/
def decodeSuperblock (bs : List Nat) : SuperblockDisk :=
  let magic := fromLE (bs.take 4); let bs := bs.drop 4
  let version := fromLE (bs.take 4); let bs := bs.drop 4
  let block_size := fromLE (bs.take 4); let bs := bs.drop 4
  let total_blocks := fromLE (bs.take 4); let bs := bs.drop 4
  let inode_table_start := fromLE (bs.take 4); let bs := bs.drop 4
  let inode_table_blocks := fromLE (bs.take 4); let bs := bs.drop 4
  let free_bitmap_start := fromLE (bs.take 4); let bs := bs.drop 4
  let free_bitmap_blocks := fromLE (bs.take 4); let bs := bs.drop 4
  let data_blocks_start := fromLE (bs.take 4); let bs := bs.drop 4
  let max_inodes := fromLE (bs.take 4); let bs := bs.drop 4
  let root_inode := fromLE (bs.take 4); let bs := bs.drop 4
  let free_blocks := fromLE (bs.take 4); let bs := bs.drop 4
  let free_inodes := fromLE (bs.take 4); let bs := bs.drop 4
  { magic, version, block_size, total_blocks, inode_table_start,
    inode_table_blocks, free_bitmap_start, free_bitmap_blocks,
    data_blocks_start, max_inodes, root_inode, free_blocks, free_inodes,
    reserved := bs.take 64 }

/-- Encoding of the 12-entry `direct_blocks: [u32; 12]` array. -/
def encodeU32s (xs : List Nat) : List Nat := (xs.map (toLE 4)).flatten

/-- Decoding of `k` consecutive `u32` values; returns the values and the
remaining bytes. -/
def decodeU32s : Nat → List Nat → List Nat × List Nat
  | 0, bs => ([], bs)
  | k + 1, bs =>
      let v := fromLE (bs.take 4)
      let p := decodeU32s k (bs.drop 4)
      (v :: p.1, p.2)

theorem decodeU32s_encodeU32s (xs rest : List Nat) (h : ∀ x ∈ xs, x < 2 ^ 32) :
    decodeU32s xs.length (encodeU32s xs ++ rest) = (xs, rest) := by
  induction xs with
  | nil => simp [encodeU32s, decodeU32s]
  | cons x xs ih =>
      have hx : x < 2 ^ 32 := h x (by simp)
      have hxs : ∀ y ∈ xs, y < 2 ^ 32 := fun y hy => h y (by simp [hy])
      simp only [encodeU32s, List.map_cons, List.flatten_cons, List.length_cons,
        decodeU32s, List.append_assoc, take_toLE, drop_toLE, fromLE_toLE]
      rw [Nat.mod_eq_of_lt (by simpa using hx)]
      have := ih hxs
      simp only [encodeU32s] at this
      simp [this]

/-- `struct_to_bytes` for an inode record (112-byte `repr(C)` layout). -/
def encodeInode (nd : InodeDisk) : List Nat :=
  toLE 4 nd.id ++ toLE 2 nd.file_type ++ toLE 2 nd.perm ++ toLE 4 nd.uid ++
  toLE 4 nd.gid ++ toLE 8 nd.size ++ toLE 8 nd.atime ++ toLE 8 nd.mtime ++
  toLE 8 nd.ctime ++ toLE 4 nd.nlink ++ encodeU32s nd.direct_blocks ++
  toLE 4 nd.indirect_block ++ toLE 4 nd.double_indirect_block ++
  toLE 4 nd._padding

/-- `read_unaligned::<InodeDisk>` on a byte buffer. -/
def decodeInode (bs : List Nat) : InodeDisk :=
  let id := fromLE (bs.take 4); let bs := bs.drop 4
  let file_type := fromLE (bs.take 2); let bs := bs.drop 2
  let perm := fromLE (bs.take 2); let bs := bs.drop 2
  let uid := fromLE (bs.take 4); let bs := bs.drop 4
  let gid := fromLE (bs.take 4); let bs := bs.drop 4
  let size := fromLE (bs.take 8); let bs := bs.drop 8
  let atime := fromLE (bs.take 8); let bs := bs.drop 8
  let mtime := fromLE (bs.take 8); let bs := bs.drop 8
  let ctime := fromLE (bs.take 8); let bs := bs.drop 8
  let nlink := fromLE (bs.take 4); let bs := bs.drop 4
  let p := decodeU32s 12 bs
  let direct_blocks := p.1
  let bs := p.2
  let indirect_block := fromLE (bs.take 4); let bs := bs.drop 4
  let double_indirect_block := fromLE (bs.take 4); let bs := bs.drop 4
  let _padding := fromLE (bs.take 4)
  { id, file_type, perm, uid, gid, size, atime, mtime, ctime, nlink,
    direct_blocks, indirect_block, double_indirect_block, _padding }

/-- Well-formedness of a superblock record: every field fits its machine type
(`u32`), and the reserved area is its declared 64 bytes. -/
def SuperblockWF (sb : SuperblockDisk) : Prop :=
  sb.magic < 2 ^ 32 ∧ sb.version < 2 ^ 32 ∧ sb.block_size < 2 ^ 32 ∧
  sb.total_blocks < 2 ^ 32 ∧ sb.inode_table_start < 2 ^ 32 ∧
  sb.inode_table_blocks < 2 ^ 32 ∧ sb.free_bitmap_start < 2 ^ 32 ∧
  sb.free_bitmap_blocks < 2 ^ 32 ∧ sb.data_blocks_start < 2 ^ 32 ∧
  sb.max_inodes < 2 ^ 32 ∧ sb.root_inode < 2 ^ 32 ∧ sb.free_blocks < 2 ^ 32 ∧
  sb.free_inodes < 2 ^ 32 ∧ sb.reserved.length = 64

/-- Well-formedness of an inode record: every field fits its machine type and
the direct-pointer array is its declared 12 `u32` entries. -/
def InodeWF (nd : InodeDisk) : Prop :=
  nd.id < 2 ^ 32 ∧ nd.file_type < 2 ^ 16 ∧ nd.perm < 2 ^ 16 ∧
  nd.uid < 2 ^ 32 ∧ nd.gid < 2 ^ 32 ∧ nd.size < 2 ^ 64 ∧ nd.atime < 2 ^ 64 ∧
  nd.mtime < 2 ^ 64 ∧ nd.ctime < 2 ^ 64 ∧ nd.nlink < 2 ^ 32 ∧
  nd.direct_blocks.length = 12 ∧ (∀ x ∈ nd.direct_blocks, x < 2 ^ 32) ∧
  nd.indirect_block < 2 ^ 32 ∧ nd.double_indirect_block < 2 ^ 32 ∧
  nd._padding < 2 ^ 32

instance (sb : SuperblockDisk) : Decidable (SuperblockWF sb) := by
  unfold SuperblockWF; infer_instance

instance (nd : InodeDisk) : Decidable (InodeWF nd) := by
  unfold InodeWF; infer_instance

theorem decodeSuperblock_encodeSuperblock (sb : SuperblockDisk)
    (h : SuperblockWF sb) : decodeSuperblock (encodeSuperblock sb) = sb := by
  obtain ⟨m, v, bsz, tb, its, itb, fbs, fbb, dbs, mi, ri, fb, fi, res⟩ := sb
  obtain ⟨h1, h2, h3, h4, h5, h6, h7, h8, h9, h10, h11, h12, h13, h14⟩ := h
  simp only [SuperblockWF] at *
  simp only [decodeSuperblock, encodeSuperblock, List.append_assoc, take_toLE,
    drop_toLE, fromLE_toLE]
  norm_num
  refine ⟨?_, ?_, ?_, ?_, ?_, ?_, ?_, ?_, ?_, ?_, ?_, ?_, ?_, ?_⟩ <;> omega

theorem decodeInode_encodeInode (nd : InodeDisk) (h : InodeWF nd) :
    decodeInode (encodeInode nd) = nd := by
  obtain ⟨i, ft, pm, u, g, sz, at_, mt, ct, nl, db, ib, dib, pad⟩ := nd
  obtain ⟨h1, h2, h3, h4, h5, h6, h7, h8, h9, h10, h11, h12, h13, h14, h15⟩ := h
  simp only at *
  have hdec : decodeU32s 12 (encodeU32s db ++ (toLE 4 ib ++
      (toLE 4 dib ++ toLE 4 pad))) =
      (db, toLE 4 ib ++ (toLE 4 dib ++ toLE 4 pad)) := by
    rw [← h11]; exact decodeU32s_encodeU32s db _ h12
  simp only [decodeInode, encodeInode, List.append_assoc, take_toLE, drop_toLE,
    take_toLE_self, fromLE_toLE, hdec]
  norm_num
  refine ⟨?_, ?_, ?_, ?_, ?_, ?_, ?_, ?_, ?_, ?_, ?_, ?_, ?_⟩ <;> omega

/-- C9: encoding a superblock record or an inode record to its fixed-size byte
representation (`struct_to_bytes` / the `repr(C)` memory image) and decoding
those bytes back (`read_unaligned` as in `mount_from_folder` and
`load_inode_disk`) yields a record identical to the original. -/
theorem record_codec_roundtrip (sb : SuperblockDisk) (nd : InodeDisk)
    (hsb : SuperblockWF sb) (hnd : InodeWF nd) :
    decodeSuperblock (encodeSuperblock sb) = sb ∧
    decodeInode (encodeInode nd) = nd :=
  ⟨decodeSuperblock_encodeSuperblock sb hsb, decodeInode_encodeInode nd hnd⟩

/-- A concrete well-formed superblock record (the shape mkfs writes for a
10-block filesystem) used to witness the round-trip theorem. -/
def sampleSuperblock : SuperblockDisk :=
  { magic := QRFS_MAGIC, version := 1, block_size := 1024, total_blocks := 10,
    inode_table_start := 1, inode_table_blocks := 1, free_bitmap_start := 2,
    free_bitmap_blocks := 1, data_blocks_start := 3, max_inodes := 9,
    root_inode := 1, free_blocks := 7, free_inodes := 8,
    reserved := List.replicate 64 0 }

/-- A concrete well-formed inode record used to witness the round-trip
theorem. -/
def sampleInode : InodeDisk :=
  { id := 1, file_type := 2, perm := 0o755, uid := 0, gid := 0, size := 0,
    atime := 77, mtime := 77, ctime := 77, nlink := 2,
    direct_blocks := List.replicate 12 0, indirect_block := 0,
    double_indirect_block := 0, _padding := 0 }

theorem record_codec_roundtrip_witness :
    SuperblockWF sampleSuperblock ∧ InodeWF sampleInode ∧
    decodeSuperblock (encodeSuperblock sampleSuperblock) = sampleSuperblock ∧
    decodeInode (encodeInode sampleInode) = sampleInode := by
  refine ⟨by decide, by decide, ?_⟩
  exact record_codec_roundtrip sampleSuperblock sampleInode (by decide)
    (by decide)

/-! # Layout planner (`build_layout` in src/src/bin/mkfs_qrfs.rs) -/

structure FsLayout where
  total_blocks : Nat
  inode_table_start : Nat
  inode_table_blocks : Nat
  free_bitmap_start : Nat
  free_bitmap_blocks : Nat
  data_blocks_start : Nat
  max_inodes : Nat
  deriving Repr, DecidableEq

/-- The three distinct failure messages of `build_layout`. -/
inductive LayoutErr
  | tooFewBlocks
  | inodeTooBig
  | noDataSpace
  deriving Repr, DecidableEq

/-- `block_size / inode_size` (= 1024 / 112 = 9). -/
def inodesPerBlock : Nat := QRFS_BLOCK_SIZE / INODE_DISK_SIZE

/-- The inode-table sizing heuristic of `build_layout`: about 10% of the
blocks, at least 1, reset to 1 if it would leave fewer than 2 other blocks. -/
def inodeTableBlocksOf (total_blocks : Nat) : Nat :=
  let x := max (total_blocks / 10) 1
  if x > total_blocks - 2 then 1 else x

/-- Blocks needed for the free bitmap: one bit per block, rounded up to whole
bytes and then to whole blocks. -/
def freeBitmapBlocksOf (total_blocks : Nat) : Nat :=
  let bitmap_bytes := (total_blocks + 7) / 8
  (bitmap_bytes + QRFS_BLOCK_SIZE - 1) / QRFS_BLOCK_SIZE

/-- First data block: the regions are laid out contiguously from block 1. -/
def dataBlocksStartOf (total_blocks : Nat) : Nat :=
  1 + inodeTableBlocksOf total_blocks + freeBitmapBlocksOf total_blocks

/-- `build_layout(total_blocks)`: region boundaries for a fresh filesystem. -/
def build_layout (total_blocks : Nat) : Except LayoutErr FsLayout :=
  if total_blocks < 3 then .error .tooFewBlocks
  else if INODE_DISK_SIZE = 0 ∨ INODE_DISK_SIZE > QRFS_BLOCK_SIZE then
    .error .inodeTooBig
  else
    let inode_table_blocks := inodeTableBlocksOf total_blocks
    let max_inodes := inodesPerBlock * inode_table_blocks
    let free_bitmap_blocks := freeBitmapBlocksOf total_blocks
    let inode_table_start := 1
    let free_bitmap_start := inode_table_start + inode_table_blocks
    let data_blocks_start := free_bitmap_start + free_bitmap_blocks
    if data_blocks_start ≥ total_blocks then .error .noDataSpace
    else
      .ok { total_blocks, inode_table_start, inode_table_blocks,
            free_bitmap_start, free_bitmap_blocks, data_blocks_start,
            max_inodes }

/-- C6: whenever the layout planner succeeds, the regions are contiguous from
block 1 and satisfy `inode_table_start + inode_table_blocks ≤
free_bitmap_start ≤ data_blocks_start ≤ total_blocks`; it fails exactly when
the inode record does not fit in one block, fewer than 3 blocks are given, or
the computed data region would be empty or negative (`data_blocks_start ≥
total_blocks`). -/
theorem build_layout_spec (T : Nat) :
    (∀ L, build_layout T = .ok L →
      L.total_blocks = T ∧ L.inode_table_start = 1 ∧
      L.free_bitmap_start = L.inode_table_start + L.inode_table_blocks ∧
      L.data_blocks_start = L.free_bitmap_start + L.free_bitmap_blocks ∧
      L.inode_table_start + L.inode_table_blocks ≤ L.free_bitmap_start ∧
      L.free_bitmap_start ≤ L.data_blocks_start ∧
      L.data_blocks_start ≤ L.total_blocks) ∧
    ((∃ e, build_layout T = .error e) ↔
      T < 3 ∨ INODE_DISK_SIZE = 0 ∨ QRFS_BLOCK_SIZE < INODE_DISK_SIZE ∨
      T ≤ dataBlocksStartOf T) := by
  constructor
  · intro L hL
    dsimp only [build_layout] at hL
    split at hL
    · exact absurd hL (by simp)
    · split at hL
      · exact absurd hL (by simp)
      · split at hL
        · exact absurd hL (by simp)
        · rename_i hge
          simp only [Except.ok.injEq] at hL
          subst hL
          simp only [ge_iff_le, not_le] at hge
          refine ⟨rfl, rfl, rfl, rfl, le_refl _, ?_, ?_⟩ <;>
            (dsimp only; omega)
  · dsimp only [build_layout]
    split
    · rename_i h
      exact ⟨fun _ => Or.inl h, fun _ => ⟨.tooFewBlocks, rfl⟩⟩
    · split
      · rename_i h; exact absurd h (by decide)
      · split
        · rename_i h1 h2 h3
          simp only [ge_iff_le] at h3
          constructor
          · intro _; right; right; right
            simpa [dataBlocksStartOf] using h3
          · intro _; exact ⟨.noDataSpace, rfl⟩
        · rename_i h1 h2 h3
          simp only [ge_iff_le, not_le] at h3
          constructor
          · rintro ⟨e, he⟩; exact absurd he (by simp)
          · intro hc
            rcases hc with h | h | h | h
            · omega
            · exact absurd h (by decide)
            · exact absurd h (by decide)
            · simp only [dataBlocksStartOf] at h; omega

/-- The layout `build_layout 10` produces. -/
def layout10 : FsLayout :=
  { total_blocks := 10, inode_table_start := 1, inode_table_blocks := 1,
    free_bitmap_start := 2, free_bitmap_blocks := 1, data_blocks_start := 3,
    max_inodes := 9 }

theorem build_layout_spec_witness :
    (layout10.total_blocks = 10 ∧ layout10.inode_table_start = 1 ∧
      layout10.free_bitmap_start =
        layout10.inode_table_start + layout10.inode_table_blocks ∧
      layout10.data_blocks_start =
        layout10.free_bitmap_start + layout10.free_bitmap_blocks ∧
      layout10.inode_table_start + layout10.inode_table_blocks ≤
        layout10.free_bitmap_start ∧
      layout10.free_bitmap_start ≤ layout10.data_blocks_start ∧
      layout10.data_blocks_start ≤ layout10.total_blocks) ∧
    (2 < 3 ∨ INODE_DISK_SIZE = 0 ∨ QRFS_BLOCK_SIZE < INODE_DISK_SIZE ∨
      2 ≤ dataBlocksStartOf 2) :=
  ⟨(build_layout_spec 10).1 layout10 (by rfl),
   ((build_layout_spec 2).2).1 ⟨.tooFewBlocks, by rfl⟩⟩

/-! # Fresh-filesystem initialisation (`init_fresh_fs` in mkfs_qrfs.rs) -/

/-- A zeroed inode-table slot. -/
def emptyInodeDisk : InodeDisk :=
  { id := 0, file_type := 0, perm := 0, uid := 0, gid := 0, size := 0,
    atime := 0, mtime := 0, ctime := 0, nlink := 0,
    direct_blocks := List.replicate 12 0, indirect_block := 0,
    double_indirect_block := 0, _padding := 0 }

/-- The root-directory inode mkfs writes into slot 1 (vector index 0). -/
def rootInodeDisk (now : Nat) : InodeDisk :=
  { id := 1, file_type := 2, perm := 0o755, uid := 0, gid := 0, size := 0,
    atime := now, mtime := now, ctime := now, nlink := 2,
    direct_blocks := List.replicate 12 0, indirect_block := 0,
    double_indirect_block := 0, _padding := 0 }

/-- The init loop body `bitmap[byte] |= 1 << bit` (indices are in range for
every block below `data_blocks_start` of a valid layout). -/
def markUsed (bm : List Nat) (b : Nat) : List Nat :=
  bm.set (b / 8) (bm.getD (b / 8) 0 ||| 1 <<< (b % 8))

/-- `bitmap_test` from fs.rs: bit of block `idx`; out-of-range bytes are
reported as used. -/
def bitmap_test (bm : List Nat) (idx : Nat) : Bool :=
  if bm.length ≤ idx / 8 then true
  else (bm.getD (idx / 8) 0).testBit (idx % 8)

/-- `init_fresh_fs(layout)`: the superblock, inode table and bitmap written by
mkfs (`now` is the wall-clock timestamp it stamps on the root inode). -/
def init_fresh_fs (L : FsLayout) (now : Nat) :
    SuperblockDisk × List InodeDisk × List Nat :=
  let data_blocks := L.total_blocks - L.data_blocks_start
  let superblock : SuperblockDisk :=
    { magic := QRFS_MAGIC, version := QRFS_VERSION,
      block_size := QRFS_BLOCK_SIZE, total_blocks := L.total_blocks,
      inode_table_start := L.inode_table_start,
      inode_table_blocks := L.inode_table_blocks,
      free_bitmap_start := L.free_bitmap_start,
      free_bitmap_blocks := L.free_bitmap_blocks,
      data_blocks_start := L.data_blocks_start, max_inodes := L.max_inodes,
      root_inode := 1, free_blocks := data_blocks,
      free_inodes := L.max_inodes - 1, reserved := List.replicate 64 0 }
  let inodes := List.replicate L.max_inodes emptyInodeDisk
  let inodes := if inodes.isEmpty then inodes else inodes.set 0 (rootInodeDisk now)
  let bitmap_bytes := (L.total_blocks + 7) / 8
  let bitmap :=
    (List.range L.data_blocks_start).foldl markUsed
      (List.replicate bitmap_bytes 0)
  (superblock, inodes, bitmap)

/-- C7: formatting a 10-block filesystem yields a superblock with
`total_blocks = 10` and `max_inodes ≥ 1`, an inode table whose slot 1 (vector
index 0, inode id 1) is a directory (`file_type = 2`) with `nlink = 2`, and a
bitmap whose first `data_blocks_start` bits are 1 while all remaining bits of
the bitmap are 0. -/
theorem mkfs_ten_blocks (now : Nat) (L : FsLayout)
    (h : build_layout 10 = .ok L) :
    (init_fresh_fs L now).1.total_blocks = 10 ∧
    1 ≤ (init_fresh_fs L now).1.max_inodes ∧
    (init_fresh_fs L now).2.1.get? 0 = some (rootInodeDisk now) ∧
    (rootInodeDisk now).file_type = 2 ∧ (rootInodeDisk now).nlink = 2 ∧
    (∀ b, b < (init_fresh_fs L now).1.data_blocks_start →
      bitmap_test (init_fresh_fs L now).2.2 b = true) ∧
    (∀ b, b < 8 * (init_fresh_fs L now).2.2.length →
      (init_fresh_fs L now).1.data_blocks_start ≤ b →
      bitmap_test (init_fresh_fs L now).2.2 b = false) := by
  have h10 : build_layout 10 = Except.ok layout10 := by rfl
  have hL : L = layout10 := (Except.ok.inj (h10.symm.trans h)).symm
  subst hL
  refine ⟨rfl, by simp [init_fresh_fs, layout10], rfl, rfl, rfl, ?_, ?_⟩ <;>
    · simp only [init_fresh_fs]
      decide

theorem mkfs_ten_blocks_witness :
    (init_fresh_fs layout10 0).1.total_blocks = 10 ∧
    1 ≤ (init_fresh_fs layout10 0).1.max_inodes ∧
    (init_fresh_fs layout10 0).2.1.get? 0 = some (rootInodeDisk 0) ∧
    (rootInodeDisk 0).file_type = 2 ∧ (rootInodeDisk 0).nlink = 2 ∧
    (∀ b, b < (init_fresh_fs layout10 0).1.data_blocks_start →
      bitmap_test (init_fresh_fs layout10 0).2.2 b = true) ∧
    (∀ b, b < 8 * (init_fresh_fs layout10 0).2.2.length →
      (init_fresh_fs layout10 0).1.data_blocks_start ≤ b →
      bitmap_test (init_fresh_fs layout10 0).2.2 b = false) :=
  mkfs_ten_blocks 0 layout10 (by rfl)

/-! # Mounted-filesystem state and the free-space allocator
(`QrfsInner`, `alloc_block` in src/src/fs.rs)

`QrfsInner.bitmap` stands for the byte content of the on-disk free-bitmap
region (what `load_bitmap` returns), and `QrfsInner.diskInodes` for the
on-disk inode table as `load_inode_disk` delivers it (`none` = the load
fails).  Disk writes are recorded as an ordered event list. -/

instance {ε α : Type} [DecidableEq ε] [DecidableEq α] :
    DecidableEq (Except ε α) := fun a b =>
  match a, b with
  | .ok x, .ok y =>
      if h : x = y then isTrue (by rw [h]) else isFalse (by simp [h])
  | .error x, .error y =>
      if h : x = y then isTrue (by rw [h]) else isFalse (by simp [h])
  | .ok _, .error _ => isFalse (by simp)
  | .error _, .ok _ => isFalse (by simp)

/-- `bitmap_set` from fs.rs: out-of-range indices are ignored; the clear
branch masks with the complement byte `!(1 << bit)`. -/
def bitmap_set (bm : List Nat) (idx : Nat) (used : Bool) : List Nat :=
  if bm.length ≤ idx / 8 then bm
  else if used then bm.set (idx / 8) (bm.getD (idx / 8) 0 ||| 1 <<< (idx % 8))
  else bm.set (idx / 8) (bm.getD (idx / 8) 0 &&& (255 ^^^ 1 <<< (idx % 8)))

/-- The fields of the in-memory `Inode` that the embedded write path touches. -/
structure MemInode where
  size : Nat
  mtime : Nat
  ctime : Nat
  deriving Repr, DecidableEq

/-- One persisted disk write, in program order. -/
inductive WriteEv
  | bitmapW (bytes : List Nat)
  | superblockW (sb : SuperblockDisk)
  | blockW (idx : Nat) (data : List Nat)
  | inodeW (ino : Nat) (nd : InodeDisk)
  deriving Repr, DecidableEq

/-- Lookup in a `HashMap` modelled as an association list. -/
def alGet {α : Type} (l : List (Nat × α)) (k : Nat) : Option α :=
  (l.find? (fun p => p.1 == k)).map (·.2)

/-- `HashMap::insert`: replace the binding if present, else add it. -/
def alSet {α : Type} (l : List (Nat × α)) (k : Nat) (v : α) : List (Nat × α) :=
  if l.any (fun p => p.1 == k) then
    l.map (fun p => if p.1 == k then (k, v) else p)
  else l ++ [(k, v)]

/-- The mounted filesystem's shared state (`QrfsInner`), restricted to the
components the allocator and the write path read or mutate. -/
structure QrfsInner where
  superblock : SuperblockDisk
  free_blocks : Nat
  free_inodes : Nat
  files : List (Nat × List Nat)
  inodes : List (Nat × MemInode)
  bitmap : List Nat
  diskInodes : List (Nat × InodeDisk)
  deriving Repr, DecidableEq

/-- The scan `for b in data_blocks_start..total_blocks` looking for the first
clear bit; `fuel` is the number of remaining iterations. -/
def findFreeGo (bm : List Nat) : Nat → Nat → Option Nat
  | 0, _ => none
  | fuel + 1, b => if bitmap_test bm b then findFreeGo bm fuel (b + 1) else some b

/-- `alloc_block(inner)`: scan the bitmap from `data_blocks_start`, claim the
first clear bit, saturating-decrement both free-block counters
(`if x > 0 { x -= 1 }` is truncated subtraction on `Nat`), persist the bitmap
then the superblock, and return the block index; with no clear bit, fail and
touch nothing. -/
def alloc_block (inner : QrfsInner) : Except Unit Nat × QrfsInner × List WriteEv :=
  let sb := inner.superblock
  let bm := inner.bitmap
  match findFreeGo bm (sb.total_blocks - sb.data_blocks_start) sb.data_blocks_start with
  | none => (.error (), inner, [])
  | some b =>
      let bm2 := bitmap_set bm b true
      let sb2 := { sb with free_blocks := sb.free_blocks - 1 }
      let inner2 :=
        { inner with superblock := sb2, free_blocks := inner.free_blocks - 1,
                     bitmap := bm2 }
      (.ok b, inner2, [.bitmapW bm2, .superblockW sb2])

theorem findFreeGo_none_iff (bm : List Nat) (fuel b : Nat) :
    findFreeGo bm fuel b = none ↔
      ∀ j, b ≤ j → j < b + fuel → bitmap_test bm j = true := by
  induction fuel generalizing b with
  | zero => simp [findFreeGo]; omega
  | succ fuel ih =>
      simp only [findFreeGo]
      by_cases hb : bitmap_test bm b
      · rw [if_pos hb, ih]
        constructor
        · intro hall j h1 h2
          rcases Nat.eq_or_lt_of_le h1 with rfl | h1
          · exact hb
          · exact hall j h1 (by omega)
        · intro hall j h1 h2
          exact hall j (by omega) (by omega)
      · rw [if_neg hb]
        simp only [reduceCtorEq, false_iff, not_forall]
        exact ⟨b, le_refl b, by omega, by simpa using hb⟩

theorem findFreeGo_some (bm : List Nat) (fuel b b' : Nat)
    (h : findFreeGo bm fuel b = some b') :
    b ≤ b' ∧ b' < b + fuel ∧ bitmap_test bm b' = false ∧
      ∀ j, b ≤ j → j < b' → bitmap_test bm j = true := by
  induction fuel generalizing b with
  | zero => simp [findFreeGo] at h
  | succ fuel ih =>
      simp only [findFreeGo] at h
      by_cases hb : bitmap_test bm b
      · rw [if_pos hb] at h
        obtain ⟨h1, h2, h3, h4⟩ := ih (b + 1) h
        refine ⟨by omega, by omega, h3, fun j hj1 hj2 => ?_⟩
        rcases Nat.eq_or_lt_of_le hj1 with rfl | hj1
        · exact hb
        · exact h4 j hj1 hj2
      · rw [if_neg hb] at h
        obtain rfl : b = b' := by simpa using h
        exact ⟨le_refl b, by omega, by simpa using hb, fun j h1 h2 => by omega⟩

/-- C1 (amended): `alloc_block` returns the first clear bit at or above
`data_blocks_start`, sets it, decrements both free-block counters *saturating
at zero* (the code guards each decrement with a positivity test), and persists
the bitmap and then the superblock, in that order; it fails exactly when every
bit of `[data_blocks_start, total_blocks)` tests as set, and then it changes
nothing and writes nothing. -/
theorem alloc_block_spec (inner : QrfsInner) (b : Nat) :
    ((alloc_block inner).1 = .ok b →
      inner.superblock.data_blocks_start ≤ b ∧
      b < inner.superblock.total_blocks ∧
      bitmap_test inner.bitmap b = false ∧
      (∀ j, inner.superblock.data_blocks_start ≤ j → j < b →
        bitmap_test inner.bitmap j = true) ∧
      (alloc_block inner).2.1.bitmap = bitmap_set inner.bitmap b true ∧
      (alloc_block inner).2.1.superblock.free_blocks =
        inner.superblock.free_blocks - 1 ∧
      (alloc_block inner).2.1.free_blocks = inner.free_blocks - 1 ∧
      (alloc_block inner).2.2 =
        [.bitmapW (bitmap_set inner.bitmap b true),
         .superblockW (alloc_block inner).2.1.superblock]) ∧
    ((alloc_block inner).1 = .error () ↔
      ∀ j, inner.superblock.data_blocks_start ≤ j →
        j < inner.superblock.total_blocks → bitmap_test inner.bitmap j = true) ∧
    ((alloc_block inner).1 = .error () →
      (alloc_block inner).2.1 = inner ∧ (alloc_block inner).2.2 = []) := by
  rcases hf : findFreeGo inner.bitmap
      (inner.superblock.total_blocks - inner.superblock.data_blocks_start)
      inner.superblock.data_blocks_start with _ | b'
  · have hall := (findFreeGo_none_iff _ _ _).mp hf
    simp only [alloc_block, hf]
    refine ⟨by intro h; exact absurd h (by simp), ?_,
      fun _ => ⟨by trivial, by trivial⟩⟩
    simp only [eq_self_iff_true, true_iff]
    intro j hj1 hj2
    exact hall j hj1 (by omega)
  · obtain ⟨h1, h2, h3, h4⟩ := findFreeGo_some _ _ _ _ hf
    simp only [alloc_block, hf]
    refine ⟨?_, ?_, by intro h; exact absurd h (by simp)⟩
    · intro h
      obtain rfl : b' = b := by simpa using h
      exact ⟨h1, by omega, h3, h4, by trivial, by trivial, by trivial,
        by trivial⟩
    · simp only [reduceCtorEq, false_iff, not_forall]
      exact ⟨b', h1, by omega, by simp [h3]⟩

/-- A state whose data region is exhausted except block 3 while both
free-block counters already read 0 (fsck's counter checks exist precisely
because such states occur on disk). -/
def allocCounterZeroInner : QrfsInner :=
  { superblock :=
      { sampleSuperblock with total_blocks := 8, free_blocks := 0 },
    free_blocks := 0, free_inodes := 0, files := [], inodes := [],
    bitmap := [7], diskInodes := [] }

/-- C1 (counterexample to the claim as stated): on
`allocCounterZeroInner`, `alloc_block` succeeds (returns block 3) but does not
decrement either free-block counter — both stay 0 instead of going to −1 of
their old value, because the code's decrements are guarded by `> 0`. -/
theorem alloc_block_claim_counterexample :
    (alloc_block allocCounterZeroInner).1 = .ok 3 ∧
    allocCounterZeroInner.superblock.free_blocks = 0 ∧
    (alloc_block allocCounterZeroInner).2.1.superblock.free_blocks + 1 ≠
      allocCounterZeroInner.superblock.free_blocks ∧
    (alloc_block allocCounterZeroInner).2.1.free_blocks + 1 ≠
      allocCounterZeroInner.free_blocks := by decide

/-- A state with free data block 3 and positive counters. -/
def allocWitnessInner : QrfsInner :=
  { superblock :=
      { sampleSuperblock with total_blocks := 8, free_blocks := 5 },
    free_blocks := 5, free_inodes := 0, files := [], inodes := [],
    bitmap := [7], diskInodes := [] }

theorem alloc_block_spec_witness :
    allocWitnessInner.superblock.data_blocks_start ≤ 3 ∧
    3 < allocWitnessInner.superblock.total_blocks ∧
    bitmap_test allocWitnessInner.bitmap 3 = false ∧
    (∀ j, allocWitnessInner.superblock.data_blocks_start ≤ j → j < 3 →
      bitmap_test allocWitnessInner.bitmap j = true) ∧
    (alloc_block allocWitnessInner).2.1.bitmap =
      bitmap_set allocWitnessInner.bitmap 3 true ∧
    (alloc_block allocWitnessInner).2.1.superblock.free_blocks =
      allocWitnessInner.superblock.free_blocks - 1 ∧
    (alloc_block allocWitnessInner).2.1.free_blocks =
      allocWitnessInner.free_blocks - 1 ∧
    (alloc_block allocWitnessInner).2.2 =
      [.bitmapW (bitmap_set allocWitnessInner.bitmap 3 true),
       .superblockW (alloc_block allocWitnessInner).2.1.superblock] :=
  (alloc_block_spec allocWitnessInner 3).1 (by decide)


/-! # The FUSE write path (`Filesystem::write` in src/src/fs.rs) -/

/-- A FUSE write reply: `reply.error(errno)` or `reply.written(count)`. -/
inductive WriteReply
  | errorReply (errno : Nat)
  | written (count : Nat)
  deriving Repr, DecidableEq

/-- `libc::EINVAL`. -/
def EINVAL : Nat := 22

/-- `libc::ENOENT`. -/
def ENOENT : Nat := 2

/-- `buf[off .. off+data.len()].copy_from_slice(data)` (the caller has grown
`buf` so that `off + data.length ≤ buf.length`). -/
def setRange (buf : List Nat) (off : Nat) (data : List Nat) : List Nat :=
  buf.take off ++ data ++ buf.drop (off + data.length)

/-- The fallback `InodeDisk` that `write` constructs when `load_inode_disk`
fails. -/
def fallbackInode (ino : Nat) : InodeDisk :=
  { id := ino, file_type := 1, perm := 0o644, uid := 0, gid := 0, size := 0,
    atime := 0, mtime := 0, ctime := 0, nlink := 1,
    direct_blocks := List.replicate 12 0, indirect_block := 0,
    double_indirect_block := 0, _padding := 0 }

/-- The inode record `write` works with: the on-disk record if it loads, the
fallback otherwise. -/
def loadedDiskInode (inner : QrfsInner) (ino : Nat) : InodeDisk :=
  match alGet inner.diskInodes ino with
  | some nd => nd
  | none => fallbackInode ino

/-- The buffer content after the in-memory half of `write`: grow the file
buffer with zero fill to cover `off + data.len()`, then overwrite that range
with `data`. -/
def writtenBuf (buf : List Nat) (off : Nat) (data : List Nat) : List Nat :=
  setRange
    (if buf.length < off + data.length then
      buf ++ List.replicate (off + data.length - buf.length) 0
    else buf) off data

/-- The in-memory state changes of `write` before the persistence block: the
file buffer is replaced, and when an in-memory inode exists its size is raised
to `max(old, off + len)` and its mtime/ctime are refreshed. -/
def memUpdated (inner : QrfsInner) (ino : Nat) (off : Nat) (data : List Nat)
    (now : Nat) : QrfsInner :=
  let buf := (alGet inner.files ino).getD []
  let inner2 := { inner with files := alSet inner.files ino (writtenBuf buf off data) }
  match alGet inner2.inodes ino with
  | some nd =>
      let needed := off + data.length
      let sz := if needed > nd.size then needed else nd.size
      let nd2 : MemInode := { size := sz, mtime := now, ctime := now }
      { inner2 with inodes := alSet inner2.inodes ino nd2 }
  | none => inner2

/-- `Filesystem::write(ino, offset, data)` with `now` the wall clock.  After
the in-memory update, the persistence block writes at most one block through
`direct_blocks[0]`, allocating it first when it is 0; if that allocation
fails, the reply is still `written(data.len())` and nothing is persisted. -/
def fs_write (inner : QrfsInner) (ino : Nat) (offset : Int) (data : List Nat)
    (now : Nat) : WriteReply × QrfsInner × List WriteEv :=
  if offset < 0 then (.errorReply EINVAL, inner, [])
  else
    match alGet inner.files ino with
    | none => (.errorReply ENOENT, inner, [])
    | some _ =>
        let innerM := memUpdated inner ino offset.toNat data now
        let full_data := (alGet innerM.files ino).getD []
        let to_write := min innerM.superblock.block_size full_data.length
        let dataW := full_data.take to_write
        let disk0 := loadedDiskInode innerM ino
        if disk0.direct_blocks.getD 0 0 = 0 then
          match alloc_block innerM with
          | (.error _, inner2, evs) => (.written data.length, inner2, evs)
          | (.ok b, inner2, evs) =>
              let disk1 := { disk0 with direct_blocks := disk0.direct_blocks.set 0 b }
              let disk2 := { disk1 with size := to_write, mtime := now, ctime := now }
              let inner3 := { inner2 with diskInodes := alSet inner2.diskInodes ino disk2 }
              (.written data.length, inner3,
                evs ++ [.blockW (disk1.direct_blocks.getD 0 0) dataW, .inodeW ino disk2])
        else
          let disk2 := { disk0 with size := to_write, mtime := now, ctime := now }
          let inner3 := { innerM with diskInodes := alSet innerM.diskInodes ino disk2 }
          (.written data.length, inner3,
            [.blockW (disk0.direct_blocks.getD 0 0) dataW, .inodeW ino disk2])

theorem memUpdated_fields (inner : QrfsInner) (ino off : Nat) (data : List Nat)
    (now : Nat) :
    (memUpdated inner ino off data now).superblock = inner.superblock ∧
    (memUpdated inner ino off data now).bitmap = inner.bitmap ∧
    (memUpdated inner ino off data now).diskInodes = inner.diskInodes ∧
    (memUpdated inner ino off data now).files =
      alSet inner.files ino (writtenBuf ((alGet inner.files ino).getD []) off data) := by
  unfold memUpdated
  dsimp only
  rcases hx : alGet inner.inodes ino with _ | nd <;> simp only [hx] <;>
    exact ⟨by trivial, by trivial, by trivial, by trivial⟩

/-- A state whose data region is completely allocated (`bitmap = [0xFF]`, 8
blocks) holding an empty in-memory file at inode 2 whose on-disk record has no
first direct block. -/
def fullDiskInner : QrfsInner :=
  { superblock := { sampleSuperblock with total_blocks := 8, free_blocks := 0 },
    free_blocks := 0, free_inodes := 0, files := [(2, [])], inodes := [],
    bitmap := [255], diskInodes := [(2, fallbackInode 2)] }

/-- C2 (counterexample to the claim as stated): writing 3 bytes at offset 0 to
inode 2 of `fullDiskInner` — a file whose first direct block is unallocated
while no free data block exists — does NOT fail: the reply is `written 3`
(success), even though nothing is persisted (no write events); the in-memory
buffer keeps the new contents. -/
theorem write_nospace_claim_counterexample :
    (fs_write fullDiskInner 2 0 [9, 9, 9] 5).1 = .written 3 ∧
    (fs_write fullDiskInner 2 0 [9, 9, 9] 5).2.2 = [] ∧
    alGet (fs_write fullDiskInner 2 0 [9, 9, 9] 5).2.1.files 2 =
      some [9, 9, 9] := by decide

/-- C2 (amended): when a write hits a file whose loaded (or fallback) on-disk
inode has `direct_blocks[0] = 0` and the data region has no clear bitmap bit,
the write does not fail: it replies `written(data.len())`; the in-memory
changes for the operation are made (the file buffer is replaced) but nothing
is persisted — the write-event list is empty and the disk-side state (disk
inode table, bitmap) is untouched. -/
theorem write_nospace_spec (inner : QrfsInner) (ino : Nat) (offset : Int)
    (data : List Nat) (now : Nat) (buf : List Nat)
    (hoff : 0 ≤ offset)
    (hfile : alGet inner.files ino = some buf)
    (hfull : ∀ j, inner.superblock.data_blocks_start ≤ j →
      j < inner.superblock.total_blocks → bitmap_test inner.bitmap j = true)
    (hd0 : (loadedDiskInode (memUpdated inner ino offset.toNat data now)
        ino).direct_blocks.getD 0 0 = 0) :
    (fs_write inner ino offset data now).1 = .written data.length ∧
    (fs_write inner ino offset data now).2.2 = [] ∧
    (fs_write inner ino offset data now).2.1.diskInodes = inner.diskInodes ∧
    (fs_write inner ino offset data now).2.1.bitmap = inner.bitmap ∧
    (fs_write inner ino offset data now).2.1.files =
      alSet inner.files ino (writtenBuf buf offset.toNat data) := by
  have hoff' : ¬ offset < 0 := by omega
  obtain ⟨hsb, hbm, hdi, hfs⟩ := memUpdated_fields inner ino offset.toNat data now
  have halloc : (alloc_block (memUpdated inner ino offset.toNat data now)).1 =
      .error () := by
    rw [(alloc_block_spec (memUpdated inner ino offset.toNat data now) 0).2.1]
    intro j hj1 hj2
    rw [hbm]
    rw [hsb] at hj1 hj2
    exact hfull j hj1 hj2
  obtain ⟨hst, hev⟩ :=
    (alloc_block_spec (memUpdated inner ino offset.toNat data now) 0).2.2 halloc
  have herr : alloc_block (memUpdated inner ino offset.toNat data now) =
      (.error (), memUpdated inner ino offset.toNat data now, []) := by
    calc alloc_block (memUpdated inner ino offset.toNat data now)
        = ((alloc_block (memUpdated inner ino offset.toNat data now)).1,
           (alloc_block (memUpdated inner ino offset.toNat data now)).2.1,
           (alloc_block (memUpdated inner ino offset.toNat data now)).2.2) := rfl
      _ = (.error (), memUpdated inner ino offset.toNat data now, []) := by
           rw [halloc, hst, hev]
  simp only [fs_write, hoff', if_false, hfile, hd0, if_pos, herr]
  refine ⟨by trivial, by trivial, hdi, hbm, ?_⟩
  rw [hfs, hfile]
  rfl

theorem write_nospace_spec_witness :
    (fs_write fullDiskInner 2 0 [9, 9, 9] 5).1 =
      .written ([9, 9, 9] : List Nat).length ∧
    (fs_write fullDiskInner 2 0 [9, 9, 9] 5).2.2 = [] ∧
    (fs_write fullDiskInner 2 0 [9, 9, 9] 5).2.1.diskInodes =
      fullDiskInner.diskInodes ∧
    (fs_write fullDiskInner 2 0 [9, 9, 9] 5).2.1.bitmap = fullDiskInner.bitmap ∧
    (fs_write fullDiskInner 2 0 [9, 9, 9] 5).2.1.files =
      alSet fullDiskInner.files 2 (writtenBuf [] (0 : Int).toNat [9, 9, 9]) :=
  write_nospace_spec fullDiskInner 2 0 [9, 9, 9] 5 [] (by decide) (by decide)
    (by decide) (by decide)


/-! # fsck: record types (fsck_types.rs) and backend capability (FsckBackend)

`FsckReport.errors` holds `String`s in the source; each distinct message
produced by the embedded passes is modelled as a constructor of `Finding`
carrying the values interpolated into the message. -/

structure FsckSuperblock where
  magic : Nat
  num_inodes : Nat
  num_blocks : Nat
  root_inode : Nat
  deriving Repr, DecidableEq

structure FsckInode where
  is_dir : Bool
  size : Nat
  direct : List Nat
  indirect1 : Option Nat
  indirect2 : Option Nat
  deriving Repr, DecidableEq

/-- A directory entry as the fsck backends deliver it; the name is the byte
content of the `String`. -/
structure FsckDirent where
  inode : Nat
  name : List Nat
  is_dir : Bool
  deriving Repr, DecidableEq

/-- The distinct finding messages of the embedded passes. -/
inductive Finding
  | sbMagicInvalid
  | sbNumInodesMismatch (num_inodes actual : Nat)
  | sbNumBlocksMismatch (num_blocks actual : Nat)
  | sbRootInodeRange (root : Nat)
  | sbNumBlocksZero
  | sbNumInodesZero
  | dupGlobalDirect (idx blk : Nat)
  | dupGlobalInd1 (idx blk : Nat)
  | dupGlobalInd2 (idx blk : Nat)
  | orphanInode (ino : Nat)
  deriving Repr, DecidableEq

structure FsckReport where
  blocks_ok : Bool
  inodes_ok : Bool
  errors : List Finding
  deriving Repr, DecidableEq

def FsckReport.new : FsckReport :=
  { blocks_ok := true, inodes_ok := true, errors := [] }

/-- `report.errors.push(msg)`. -/
def pushErr (r : FsckReport) (f : Finding) : FsckReport :=
  { r with errors := r.errors ++ [f] }

/-- The `FsckBackend` trait: what a backend exposes to the fsck engine. -/
structure FsckBackend where
  load_superblock : FsckSuperblock
  load_all_inodes : List FsckInode
  read_inode : Nat → Option FsckInode
  read_block : Nat → Option (List Nat)
  read_dir : Nat → List FsckDirent
  load_block_bitmap : List Bool

/-! # fsck pass 1: `check_superblock` (fsck.rs) -/

def check_superblock (b : FsckBackend) (r : FsckReport) : FsckReport :=
  let sb := b.load_superblock
  let inodes := b.load_all_inodes
  let bitmap := b.load_block_bitmap
  let r := if sb.magic ≠ 0x1234 then pushErr r .sbMagicInvalid else r
  let r := if sb.num_inodes ≠ inodes.length then
      { pushErr r (.sbNumInodesMismatch sb.num_inodes inodes.length) with inodes_ok := false }
    else r
  let r := if sb.num_blocks ≠ bitmap.length then
      { pushErr r (.sbNumBlocksMismatch sb.num_blocks bitmap.length) with blocks_ok := false }
    else r
  let r := if inodes.length ≤ sb.root_inode then
      { pushErr r (.sbRootInodeRange sb.root_inode) with inodes_ok := false }
    else r
  let r := if sb.num_blocks = 0 then
      { pushErr r .sbNumBlocksZero with blocks_ok := false }
    else r
  let r := if sb.num_inodes = 0 then
      { pushErr r .sbNumInodesZero with inodes_ok := false }
    else r
  r

/-- The findings the superblock pass appends, one per violated condition, in
check order. -/
def sbFindings (b : FsckBackend) : List Finding :=
  (if b.load_superblock.magic ≠ 0x1234 then [Finding.sbMagicInvalid] else []) ++
  (if b.load_superblock.num_inodes ≠ b.load_all_inodes.length then
    [Finding.sbNumInodesMismatch b.load_superblock.num_inodes b.load_all_inodes.length]
  else []) ++
  (if b.load_superblock.num_blocks ≠ b.load_block_bitmap.length then
    [Finding.sbNumBlocksMismatch b.load_superblock.num_blocks b.load_block_bitmap.length]
  else []) ++
  (if b.load_all_inodes.length ≤ b.load_superblock.root_inode then
    [Finding.sbRootInodeRange b.load_superblock.root_inode]
  else []) ++
  (if b.load_superblock.num_blocks = 0 then [Finding.sbNumBlocksZero] else []) ++
  (if b.load_superblock.num_inodes = 0 then [Finding.sbNumInodesZero] else [])

theorem check_superblock_errors_eq (b : FsckBackend) (r : FsckReport) :
    (check_superblock b r).errors = r.errors ++ sbFindings b := by
  simp only [check_superblock, sbFindings]
  split_ifs <;> simp [pushErr]

theorem check_superblock_inodes_ok_eq (b : FsckBackend) (r : FsckReport) :
    (check_superblock b r).inodes_ok =
      (r.inodes_ok &&
        !(decide (b.load_superblock.num_inodes ≠ b.load_all_inodes.length) ||
          decide (b.load_all_inodes.length ≤ b.load_superblock.root_inode) ||
          decide (b.load_superblock.num_inodes = 0))) := by
  simp only [check_superblock]
  split_ifs <;> simp_all [pushErr]

theorem check_superblock_blocks_ok_eq (b : FsckBackend) (r : FsckReport) :
    (check_superblock b r).blocks_ok =
      (r.blocks_ok &&
        !(decide (b.load_superblock.num_blocks ≠ b.load_block_bitmap.length) ||
          decide (b.load_superblock.num_blocks = 0))) := by
  simp only [check_superblock]
  split_ifs <;> simp_all [pushErr]

/-- Scenario B's mock: `num_inodes = 2` in the superblock, but only one real
inode; everything else consistent. -/
def scenarioBBackend : FsckBackend :=
  { load_superblock := { magic := 0x1234, num_inodes := 2, num_blocks := 1, root_inode := 0 },
    load_all_inodes := [{ is_dir := true, size := 0, direct := [], indirect1 := none, indirect2 := none }],
    read_inode := fun _ => none,
    read_block := fun _ => none,
    read_dir := fun _ => [],
    load_block_bitmap := [true] }

/-- C3: the superblock pass appends one distinct finding per violated
condition and no others — bad magic, inode-count field ≠ actual loaded inode
count, block-count field ≠ bitmap length, root inode not `<` the actual inode
count, `num_blocks = 0`, `num_inodes = 0` — flipping `inodes_ok`/`blocks_ok`
accordingly; in particular (Scenario B) a superblock with `num_inodes = 2`
over 1 real inode yields exactly the count-mismatch finding and
`inodes_ok = false`. -/
theorem fsck_superblock_pass_spec (b : FsckBackend) (r : FsckReport) :
    ((check_superblock b r).errors = r.errors ++
      ((if b.load_superblock.magic ≠ 0x1234 then [Finding.sbMagicInvalid] else []) ++
       (if b.load_superblock.num_inodes ≠ b.load_all_inodes.length then
         [Finding.sbNumInodesMismatch b.load_superblock.num_inodes b.load_all_inodes.length]
       else []) ++
       (if b.load_superblock.num_blocks ≠ b.load_block_bitmap.length then
         [Finding.sbNumBlocksMismatch b.load_superblock.num_blocks b.load_block_bitmap.length]
       else []) ++
       (if b.load_all_inodes.length ≤ b.load_superblock.root_inode then
         [Finding.sbRootInodeRange b.load_superblock.root_inode]
       else []) ++
       (if b.load_superblock.num_blocks = 0 then [Finding.sbNumBlocksZero] else []) ++
       (if b.load_superblock.num_inodes = 0 then [Finding.sbNumInodesZero] else []))) ∧
    ((check_superblock b r).inodes_ok = false ↔
      (r.inodes_ok = false ∨
        b.load_superblock.num_inodes ≠ b.load_all_inodes.length ∨
        b.load_all_inodes.length ≤ b.load_superblock.root_inode ∨
        b.load_superblock.num_inodes = 0)) ∧
    ((check_superblock b r).blocks_ok = false ↔
      (r.blocks_ok = false ∨
        b.load_superblock.num_blocks ≠ b.load_block_bitmap.length ∨
        b.load_superblock.num_blocks = 0)) ∧
    (check_superblock scenarioBBackend FsckReport.new).errors =
      [Finding.sbNumInodesMismatch 2 1] ∧
    (check_superblock scenarioBBackend FsckReport.new).inodes_ok = false := by
  refine ⟨check_superblock_errors_eq b r, ?_, ?_, by decide, by decide⟩
  · rw [check_superblock_inodes_ok_eq]
    rcases r.inodes_ok <;> simp <;> omega
  · rw [check_superblock_blocks_ok_eq]
    rcases r.blocks_ok <;> simp <;> omega

/-! # fsck pass 6: `check_orphan_inodes` (fsck.rs)

The source builds a `referenced: Vec<bool>` by marking the root (when in
range) and every in-range inode id mentioned by any directory inode's
entries, then reports every index left unmarked.  The vector is represented
by its membership function `referencedB`. -/

/-- Whether the marking loops of `check_orphan_inodes` set `referenced[i]`:
the root mark (guarded by `root < len`) or a mark from some directory inode's
entry (guarded by `entry.inode < len`). -/
def referencedB (b : FsckBackend) (i : Nat) : Bool :=
  (decide (b.load_superblock.root_inode < b.load_all_inodes.length) &&
    decide (i = b.load_superblock.root_inode)) ||
  b.load_all_inodes.enum.any (fun p => p.2.is_dir &&
    (b.read_dir p.1).any (fun e =>
      decide (e.inode < b.load_all_inodes.length) && decide (e.inode = i)))

def check_orphan_inodes (b : FsckBackend) (r : FsckReport) : FsckReport :=
  let n := b.load_all_inodes.length
  let orphans := (List.range n).filter (fun i => !(referencedB b i))
  { r with errors := r.errors ++ orphans.map Finding.orphanInode,
           inodes_ok := r.inodes_ok && orphans.isEmpty }

/-- Modelled from the claim's words (for comparison with the code): `d` holds
a directory entry naming `c`. -/
def dirEdge (b : FsckBackend) (d c : Nat) : Prop :=
  ∃ nd, b.load_all_inodes.get? d = some nd ∧ nd.is_dir = true ∧
    ∃ e ∈ b.read_dir d, e.inode = c

/-- Modelled from the claim's words: reachable from the root inode via a path
of directory entries. -/
def reachableFromRoot (b : FsckBackend) (i : Nat) : Prop :=
  Relation.ReflTransGen (dirEdge b) b.load_superblock.root_inode i

/-- A backend in which inode 1 is an unreachable directory whose entries name
inode 2: inode 2 is referenced by a directory but not reachable from the
root. -/
def orphanCexBackend : FsckBackend :=
  { load_superblock := { magic := 0x1234, num_inodes := 3, num_blocks := 1, root_inode := 0 },
    load_all_inodes :=
      [{ is_dir := true, size := 0, direct := [], indirect1 := none, indirect2 := none },
       { is_dir := true, size := 0, direct := [], indirect1 := none, indirect2 := none },
       { is_dir := false, size := 0, direct := [], indirect1 := none, indirect2 := none }],
    read_inode := fun _ => none,
    read_block := fun _ => none,
    read_dir := fun i => if i = 1 then [{ inode := 2, name := [120], is_dir := false }] else [],
    load_block_bitmap := [true] }

/-- C4 (counterexample to the claim as stated): in `orphanCexBackend`, inode 2
is not the root and not reachable from the root via directory entries, yet the
orphan pass does NOT report it (it is marked via the unreachable directory 1);
only inode 1 is reported.  The pass marks entries of every directory, not just
of directories reachable from the root. -/
theorem fsck_orphan_claim_counterexample :
    Finding.orphanInode 2 ∉ (check_orphan_inodes orphanCexBackend FsckReport.new).errors ∧
    (2 : Nat) ≠ orphanCexBackend.load_superblock.root_inode ∧
    ¬ reachableFromRoot orphanCexBackend 2 ∧
    Finding.orphanInode 1 ∈ (check_orphan_inodes orphanCexBackend FsckReport.new).errors := by
  refine ⟨by decide, by decide, ?_, by decide⟩
  intro h
  rcases Relation.ReflTransGen.cases_head h with h0 | ⟨c, hc, _⟩
  · exact absurd h0 (by decide)
  · obtain ⟨nd, hnd, hdir, e, he, hei⟩ := hc
    have : orphanCexBackend.read_dir orphanCexBackend.load_superblock.root_inode = [] := by decide
    rw [this] at he
    exact absurd he (List.not_mem_nil e)

/-- The marking loops of `check_orphan_inodes`, read pointwise. -/
theorem referencedB_iff (b : FsckBackend) (i : Nat) :
    referencedB b i = true ↔
      ((b.load_superblock.root_inode < b.load_all_inodes.length ∧
        i = b.load_superblock.root_inode) ∨
       (∃ p ∈ b.load_all_inodes.enum, p.2.is_dir = true ∧
         ∃ e ∈ b.read_dir p.1,
           e.inode < b.load_all_inodes.length ∧ e.inode = i)) := by
  simp only [referencedB, Bool.or_eq_true, Bool.and_eq_true,
    decide_eq_true_eq, List.any_eq_true]

/-- C4 (amended): the orphan pass reports inode `i` (and flips `inodes_ok`)
if and only if `i` is in range and neither is the in-range root inode nor is
referenced (with an in-range id) by the entry list of ANY directory inode —
reachable or not.  Reachability from the root is not computed: the marking is
a single step over all directories, not a closure from the root. -/
theorem fsck_orphan_pass_spec (b : FsckBackend) (r : FsckReport) (i : Nat) :
    (Finding.orphanInode i ∈ (check_orphan_inodes b r).errors ↔
      (Finding.orphanInode i ∈ r.errors ∨
        (i < b.load_all_inodes.length ∧
          ¬ ((b.load_superblock.root_inode < b.load_all_inodes.length ∧
              i = b.load_superblock.root_inode) ∨
             (∃ p ∈ b.load_all_inodes.enum, p.2.is_dir = true ∧
               ∃ e ∈ b.read_dir p.1,
                 e.inode < b.load_all_inodes.length ∧ e.inode = i))))) ∧
    ((check_orphan_inodes b r).inodes_ok = false ↔
      (r.inodes_ok = false ∨
        ∃ j, j < b.load_all_inodes.length ∧ referencedB b j = false)) := by
  have hmem : ∀ j : Nat,
      Finding.orphanInode j ∈ (check_orphan_inodes b r).errors ↔
        Finding.orphanInode j ∈ r.errors ∨
          (j < b.load_all_inodes.length ∧ referencedB b j = false) := by
    intro j
    simp only [check_orphan_inodes, List.mem_append, List.mem_map,
      List.mem_filter, List.mem_range, Bool.not_eq_true',
      Finding.orphanInode.injEq]
    constructor
    · rintro (hin | ⟨x, ⟨hx1, hx2⟩, rfl⟩)
      · exact Or.inl hin
      · exact Or.inr ⟨hx1, hx2⟩
    · rintro (hin | ⟨hj, href⟩)
      · exact Or.inl hin
      · exact Or.inr ⟨j, ⟨hj, href⟩, rfl⟩
  constructor
  · rw [hmem i]
    constructor
    · rintro (h | ⟨hlt, href⟩)
      · exact Or.inl h
      · refine Or.inr ⟨hlt, fun hcon => ?_⟩
        exact absurd ((referencedB_iff b i).mpr hcon) (by simp [href])
    · rintro (h | ⟨hlt, hcon⟩)
      · exact Or.inl h
      · refine Or.inr ⟨hlt, ?_⟩
        rcases hb : referencedB b i
        · rfl
        · exact absurd ((referencedB_iff b i).mp hb) hcon
  · simp only [check_orphan_inodes]
    rcases hr : r.inodes_ok
    · simp [hr]
    · simp only [Bool.true_and]
      constructor
      · intro h
        have hne : (List.range b.load_all_inodes.length).filter
            (fun i => !referencedB b i) ≠ [] := by
          intro hnil
          rw [hnil] at h
          simp at h
        obtain ⟨x, hx⟩ := List.exists_mem_of_ne_nil _ hne
        have hx2 := List.mem_filter.mp hx
        exact Or.inr ⟨x, List.mem_range.mp hx2.1, by simpa using hx2.2⟩
      · rintro (habs | ⟨j, hj, href⟩)
        · exact absurd habs (by simp)
        · have hmemf : j ∈ (List.range b.load_all_inodes.length).filter
              (fun i => !referencedB b i) :=
            List.mem_filter.mpr ⟨List.mem_range.mpr hj, by simp [href]⟩
          rcases hemp : ((List.range b.load_all_inodes.length).filter
              (fun i => !referencedB b i)).isEmpty
          · simp [hemp]
          · rw [List.isEmpty_iff] at hemp
            rw [hemp] at hmemf
            exact absurd hmemf (List.not_mem_nil j)


/-! # fsck pass 3: `check_blocks_global` (fsck.rs)

The source iterates over all inodes and, per inode, over the direct array and
the two optional indirect pointers, inserting each value into one shared
`HashSet` and reporting a finding whenever an insertion hits a value already
present.  The traversal is represented as one flattened occurrence list
(tag 0 = direct, 1 = indirect1, 2 = indirect2, in the code's visit order) and
the set as the list of values seen so far. -/

/-- The finding message for a repeated occurrence, by pointer kind. -/
def mkDupFinding : Nat × Nat × Nat → Finding
  | (0, idx, blk) => .dupGlobalDirect idx blk
  | (1, idx, blk) => .dupGlobalInd1 idx blk
  | (_, idx, blk) => .dupGlobalInd2 idx blk

/-- The pointer occurrences of one inode, in the order the pass visits them:
every direct entry (zeros included), then `indirect1`/`indirect2` when
present. -/
def inodeOccs (idx : Nat) (nd : FsckInode) : List (Nat × Nat × Nat) :=
  nd.direct.map (fun v => (0, idx, v)) ++
  (match nd.indirect1 with | some v => [(1, idx, v)] | none => []) ++
  (match nd.indirect2 with | some v => [(2, idx, v)] | none => [])

/-- All pointer occurrences of all inodes, in visit order. -/
def occList (b : FsckBackend) : List (Nat × Nat × Nat) :=
  (b.load_all_inodes.enum.map (fun p => inodeOccs p.1 p.2)).flatten

/-- The `seen.insert` loop: a finding per occurrence whose value is already in
the set. -/
def dupScan : List (Nat × Nat × Nat) → List Nat → List Finding × List Nat
  | [], seen => ([], seen)
  | o :: rest, seen =>
      if o.2.2 ∈ seen then
        let p := dupScan rest seen
        (mkDupFinding o :: p.1, p.2)
      else dupScan rest (o.2.2 :: seen)

def check_blocks_global (b : FsckBackend) (r : FsckReport) : FsckReport :=
  let fs := (dupScan (occList b) []).1
  { r with errors := r.errors ++ fs, blocks_ok := r.blocks_ok && fs.isEmpty }

theorem dupScan_findings_nil_iff (ps : List (Nat × Nat × Nat))
    (seen : List Nat) :
    (dupScan ps seen).1 = [] ↔
      ((ps.map (fun o => o.2.2)).Nodup ∧
        ∀ v ∈ ps.map (fun o => o.2.2), v ∉ seen) := by
  induction ps generalizing seen with
  | nil => simp [dupScan]
  | cons o rest ih =>
      simp only [dupScan, List.map_cons]
      by_cases h : o.2.2 ∈ seen
      · rw [if_pos h]
        simp only [reduceCtorEq, false_iff, not_and, List.nodup_cons]
        intro _
        simp only [not_forall]
        exact ⟨o.2.2, by simp, by simpa using h⟩
      · rw [if_neg h, ih]
        constructor
        · rintro ⟨hnd, hall⟩
          refine ⟨List.nodup_cons.mpr ⟨?_, hnd⟩, ?_⟩
          · intro hmem
            exact absurd (List.mem_cons_self _ _) (hall _ hmem)
          · intro v hv
            rcases List.mem_cons.mp hv with rfl | hv2
            · exact h
            · intro hvseen
              exact (hall v hv2) (List.mem_cons_of_mem _ hvseen)
        · rintro ⟨hndc, hall⟩
          obtain ⟨hno, hnd⟩ := List.nodup_cons.mp hndc
          refine ⟨hnd, ?_⟩
          intro v hv hvc
          rcases List.mem_cons.mp hvc with rfl | hvseen
          · exact hno hv
          · exact (hall v (List.mem_cons_of_mem _ hv)) hvseen

/-- A backend with a single inode whose direct array repeats block 7. -/
def dupCexBackend : FsckBackend :=
  { load_superblock := { magic := 0x1234, num_inodes := 1, num_blocks := 8, root_inode := 0 },
    load_all_inodes := [{ is_dir := true, size := 0, direct := [7, 7], indirect1 := none, indirect2 := none }],
    read_inode := fun _ => none,
    read_block := fun _ => none,
    read_dir := fun _ => [],
    load_block_bitmap := [true, true, true, true, true, true, true, true] }

/-- Modelled from the claim's words (for comparison with the code): the
direct/indirect pointers of one inode record, as a list of values. -/
def ptrsOfInode (nd : FsckInode) : List Nat :=
  nd.direct ++ nd.indirect1.toList ++ nd.indirect2.toList

/-- Modelled from the claim's words: some non-zero block pointer value occurs
in the pointers of two different inode records. -/
def crossInodeDup (b : FsckBackend) : Prop :=
  ∃ v, v ≠ 0 ∧ ∃ i j, i ≠ j ∧
    (∃ ndi, b.load_all_inodes.get? i = some ndi ∧ v ∈ ptrsOfInode ndi) ∧
    (∃ ndj, b.load_all_inodes.get? j = some ndj ∧ v ∈ ptrsOfInode ndj)

/-- C5 (counterexample to the claim as stated): `dupCexBackend` has one single
inode (so no value can occur in two different inode records), yet the global
uniqueness pass reports a "duplicate globally" finding, because the shared
set also catches repeats within one inode. -/
theorem fsck_blocks_global_claim_counterexample :
    (check_blocks_global dupCexBackend FsckReport.new).errors =
      [Finding.dupGlobalDirect 0 7] ∧
    ¬ crossInodeDup dupCexBackend := by
  refine ⟨by decide, ?_⟩
  rintro ⟨v, hv0, i, j, hij, ⟨ndi, hi, hvi⟩, ⟨ndj, hj, hvj⟩⟩
  have hilen : i < dupCexBackend.load_all_inodes.length := by
    by_contra hcon
    rw [List.get?_eq_none.mpr (by omega)] at hi
    exact absurd hi (by simp)
  have hjlen : j < dupCexBackend.load_all_inodes.length := by
    by_contra hcon
    rw [List.get?_eq_none.mpr (by omega)] at hj
    exact absurd hj (by simp)
  have hlen : dupCexBackend.load_all_inodes.length = 1 := by decide
  omega

/-- C5 (amended): the global uniqueness pass reports a "duplicate globally"
finding if and only if some block-pointer value — zero included — occurs at
least twice among the occurrences of all inodes' direct arrays and present
indirect pointers, repeats within a single inode record included. -/
theorem fsck_blocks_global_spec (b : FsckBackend) :
    ((check_blocks_global b FsckReport.new).errors ≠ [] ↔
      ∃ v, 2 ≤ ((occList b).map (fun o => o.2.2)).count v) ∧
    ((check_blocks_global b FsckReport.new).blocks_ok = false ↔
      ∃ v, 2 ≤ ((occList b).map (fun o => o.2.2)).count v) := by
  have hkey : (dupScan (occList b) []).1 = [] ↔
      ((occList b).map (fun o => o.2.2)).Nodup := by
    rw [dupScan_findings_nil_iff]
    simp
  have hcnt : ¬ ((occList b).map (fun o => o.2.2)).Nodup ↔
      ∃ v, 2 ≤ ((occList b).map (fun o => o.2.2)).count v := by
    rw [List.nodup_iff_count_le_one]
    push_neg
    constructor
    · rintro ⟨v, hv⟩; exact ⟨v, hv⟩
    · rintro ⟨v, hv⟩; exact ⟨v, hv⟩
  constructor
  · simp only [check_blocks_global, FsckReport.new, List.nil_append]
    rw [← hcnt, ← hkey]
  · simp only [check_blocks_global, FsckReport.new, Bool.true_and]
    rw [← hcnt, ← hkey]
    constructor
    · intro h hnil
      rw [hnil] at h
      simp at h
    · intro h
      rcases hemp : ((dupScan (occList b) []).1).isEmpty
      · simp [hemp]
      · rw [List.isEmpty_iff] at hemp
        exact absurd hemp h


/-! # The on-disk fsck backend (`QrfsBackend` in fsck_backend.rs)

A `DiskState` is the nominated folder: entry `i` of `files` is the content of
the `i`-th block file by sorted name, `none` standing for a file that cannot
be opened or read. -/

structure DiskState where
  files : List (Option (List Nat))

/-- `read_block_raw`: index into the sorted file list, then `read_exact` a
whole `QRFS_BLOCK_SIZE` buffer (fails when the file is missing, unreadable or
shorter than one block). -/
def read_block_raw (st : DiskState) (block_index : Nat) : Option (List Nat) :=
  match st.files.get? block_index with
  | none => none
  | some none => none
  | some (some content) =>
      if content.length < QRFS_BLOCK_SIZE then none
      else some (content.take QRFS_BLOCK_SIZE)

/-- `load_superblock_disk`: decode block 0 as a `SuperblockDisk`; `none` when
the block cannot be read (the size guard is the code's
`size_of::<SuperblockDisk>() > buf.len()` check). -/
def load_superblock_disk (st : DiskState) : Option SuperblockDisk :=
  match read_block_raw st 0 with
  | none => none
  | some buf =>
      if buf.length < SUPERBLOCK_DISK_SIZE then none
      else some (decodeSuperblock buf)

/-- `QrfsBackend::load_superblock`: when the disk superblock decodes, the
adapter returns the constant `0x1234` that fsck.rs expects as `magic` —
regardless of the magic stored on disk — plus `max_inodes + 1` and
`total_blocks`; when block 0 cannot be read it returns all zeros. -/
def qrfs_load_superblock (st : DiskState) : FsckSuperblock :=
  match load_superblock_disk st with
  | some sb =>
      { magic := 0x1234, num_inodes := sb.max_inodes + 1,
        num_blocks := sb.total_blocks, root_inode := sb.root_inode }
  | none => { magic := 0, num_inodes := 0, num_blocks := 0, root_inode := 0 }

/-- Read `count` consecutive whole blocks starting at `first` (each via
`read_exact`), concatenated; `none` if any read fails. -/
def readBlocksSeq (st : DiskState) : Nat → Nat → Option (List Nat)
  | _, 0 => some []
  | first, count + 1 =>
      match read_block_raw st first, readBlocksSeq st (first + 1) count with
      | some b, some rest => some (b ++ rest)
      | _, _ => none

/-- `QrfsBackend::load_inode_disk`: bounds-check the inode id and the inode
table's block range, read the whole table, and decode the record at
`(ino - 1) * INODE_DISK_SIZE`. -/
def qrfs_load_inode_disk (st : DiskState) (ino : Nat) (sb : SuperblockDisk) :
    Option InodeDisk :=
  if ino = 0 ∨ sb.max_inodes < ino then none
  else if st.files.length < sb.inode_table_start + sb.inode_table_blocks then none
  else
    match readBlocksSeq st sb.inode_table_start sb.inode_table_blocks with
    | none => none
    | some buf =>
        if buf.length < (ino - 1) * INODE_DISK_SIZE + INODE_DISK_SIZE then none
        else some (decodeInode (buf.drop ((ino - 1) * INODE_DISK_SIZE)))

/-- The adapter's conversion of an `InodeDisk` to the fsck `Inode` (`size` is
truncated `as u32`; absent indirect pointers become `none`). -/
def inodeDiskToFsck (nd : InodeDisk) : FsckInode :=
  { is_dir := nd.file_type = 2, size := nd.size % 2 ^ 32,
    direct := nd.direct_blocks,
    indirect1 := if nd.indirect_block ≠ 0 then some nd.indirect_block else none,
    indirect2 := if nd.double_indirect_block ≠ 0 then some nd.double_indirect_block else none }

/-- The empty placeholder inode the adapter emits for slot 0 and for slots
whose record fails to load. -/
def dummyFsckInode : FsckInode :=
  { is_dir := false, size := 0, direct := [], indirect1 := none, indirect2 := none }

/-- `QrfsBackend::load_all_inodes`: a dummy at index 0, then one entry per
inode id `1 ..= max_inodes`. -/
def qrfs_load_all_inodes (st : DiskState) : List FsckInode :=
  match load_superblock_disk st with
  | none => []
  | some sb =>
      dummyFsckInode ::
        (List.range sb.max_inodes).map (fun k =>
          match qrfs_load_inode_disk st (k + 1) sb with
          | some nd => inodeDiskToFsck nd
          | none => dummyFsckInode)

/-- One 60-byte `DirEntryDisk` (4-byte inode id + 56-byte NUL-padded name)
after another while a full record remains, skipping free slots and empty
names; the adapter marks every root entry as a directory. -/
def direntsLoop (buf : List Nat) : List FsckDirent :=
  if h : buf.length < 60 then []
  else
    let ino := fromLE (buf.take 4)
    let nameBytes := ((buf.drop 4).take QRFS_NAME_LEN).takeWhile (fun x => x ≠ 0)
    let rest := direntsLoop (buf.drop 60)
    if ino = 0 then rest
    else if nameBytes.isEmpty then rest
    else { inode := ino, name := nameBytes, is_dir := true } :: rest
termination_by buf.length
decreasing_by simp_all [List.length_drop]; omega

/-- `QrfsBackend::read_root_dir`: follow the root inode's first direct block
and unpack its directory entries. -/
def qrfs_read_root_dir (st : DiskState) (sb : SuperblockDisk) : List FsckDirent :=
  if sb.root_inode = 0 then []
  else
    match qrfs_load_inode_disk st sb.root_inode sb with
    | none => []
    | some nd =>
        if nd.file_type ≠ 2 then []
        else if nd.direct_blocks.getD 0 0 = 0 then []
        else direntsLoop ((read_block_raw st (nd.direct_blocks.getD 0 0)).getD [])

/-- `QrfsBackend::read_dir`: only the root directory is supported. -/
def qrfs_read_dir (st : DiskState) (ino : Nat) : List FsckDirent :=
  match load_superblock_disk st with
  | none => []
  | some sb => if ino = sb.root_inode then qrfs_read_root_dir st sb else []

/-- `QrfsBackend::load_block_bitmap`: read the bitmap region, truncate to the
bytes covering `total_blocks`, and expand into one `Bool` per block. -/
def qrfs_load_block_bitmap (st : DiskState) : List Bool :=
  match load_superblock_disk st with
  | none => []
  | some sb =>
      if st.files.length < sb.free_bitmap_start + sb.free_bitmap_blocks then []
      else
        match readBlocksSeq st sb.free_bitmap_start sb.free_bitmap_blocks with
        | none => []
        | some buf =>
            let buf := buf.take ((sb.total_blocks + 7) / 8)
            (List.range sb.total_blocks).map (fun blk =>
              decide (blk / 8 < buf.length) && (buf.getD (blk / 8) 0).testBit (blk % 8))

/-- `QrfsBackend::read_inode`: index into `load_all_inodes`. -/
def qrfs_read_inode (st : DiskState) (ino : Nat) : Option FsckInode :=
  (qrfs_load_all_inodes st).get? ino

/-- The on-disk backend as an `FsckBackend` instance. -/
def qrfsBackend (st : DiskState) : FsckBackend :=
  { load_superblock := qrfs_load_superblock st,
    load_all_inodes := qrfs_load_all_inodes st,
    read_inode := qrfs_read_inode st,
    read_block := read_block_raw st,
    read_dir := qrfs_read_dir st,
    load_block_bitmap := qrfs_load_block_bitmap st }

theorem sbFindings_magic_mem (b : FsckBackend) :
    Finding.sbMagicInvalid ∈ sbFindings b ↔
      b.load_superblock.magic ≠ 0x1234 := by
  unfold sbFindings
  split_ifs <;> simp_all

/-- C10: the on-disk backend's `load_superblock` reports `magic = 0x1234`
whenever block 0 can be read and decoded — no matter what magic is stored on
disk — and reports `magic = 0` with zero counts exactly when block 0 cannot
be read; consequently the engine's invalid-magic finding for this backend
occurs if and only if the superblock block is unreadable, never because the
stored magic field differs from `QRFS_MAGIC`. -/
theorem qrfs_backend_magic_spec (st : DiskState) :
    ((qrfsBackend st).load_superblock.magic = 0x1234 ↔
      (read_block_raw st 0).isSome = true) ∧
    (((qrfsBackend st).load_superblock.magic = 0 ∧
        (qrfsBackend st).load_superblock.num_inodes = 0 ∧
        (qrfsBackend st).load_superblock.num_blocks = 0) ↔
      read_block_raw st 0 = none) ∧
    (Finding.sbMagicInvalid ∈
        (check_superblock (qrfsBackend st) FsckReport.new).errors ↔
      read_block_raw st 0 = none) := by
  have hdisk : ∀ buf, read_block_raw st 0 = some buf →
      load_superblock_disk st = some (decodeSuperblock buf) := by
    intro buf hbuf
    have hlen : buf.length = QRFS_BLOCK_SIZE := by
      unfold read_block_raw at hbuf
      rcases hg : st.files.get? 0 with _ | c
      · rw [hg] at hbuf
        simp at hbuf
      · rcases c with _ | content
        · rw [hg] at hbuf
          simp at hbuf
        · rw [hg] at hbuf
          dsimp only at hbuf
          by_cases hc : content.length < QRFS_BLOCK_SIZE
          · rw [if_pos hc] at hbuf
            exact absurd hbuf (by simp)
          · rw [if_neg hc] at hbuf
            obtain rfl : content.take QRFS_BLOCK_SIZE = buf := by simpa using hbuf
            simp only [List.length_take]
            omega
    unfold load_superblock_disk
    simp only [hbuf]
    rw [if_neg (by rw [hlen]; decide)]
  have hmagic : Finding.sbMagicInvalid ∈
      (check_superblock (qrfsBackend st) FsckReport.new).errors ↔
      (qrfsBackend st).load_superblock.magic ≠ 0x1234 := by
    rw [check_superblock_errors_eq]
    simp only [FsckReport.new, List.nil_append]
    exact sbFindings_magic_mem (qrfsBackend st)
  rcases hb : read_block_raw st 0 with _ | buf
  · have hn : load_superblock_disk st = none := by
      unfold load_superblock_disk
      rw [hb]
    refine ⟨?_, ?_, ?_⟩
    · simp [qrfsBackend, qrfs_load_superblock, hn]
    · simp [qrfsBackend, qrfs_load_superblock, hn]
    · rw [hmagic]
      simp [qrfsBackend, qrfs_load_superblock, hn]
  · have hs := hdisk buf hb
    refine ⟨?_, ?_, ?_⟩
    · simp [qrfsBackend, qrfs_load_superblock, hs]
    · simp [qrfsBackend, qrfs_load_superblock, hs]
    · rw [hmagic]
      simp [qrfsBackend, qrfs_load_superblock, hs]


/-! # The FUSE read path, disk branch (`Filesystem::read` in src/src/fs.rs)

`disk b j` is byte `j` of the backing file of block `b` (a successful
`read_fs_block b` is exactly `(List.range QRFS_BLOCK_SIZE).map (disk b)`).
The block loop `for i in first_block_idx..=last_block_idx` is embedded with
`fuel = last + 1 - first` remaining iterations; each `break` returns the
accumulator. -/

def readLoop (disk : Nat → Nat → Nat) (direct : List Nat)
    (bs start endp to_read first last : Nat) :
    Nat → Nat → List Nat → List Nat
  | 0, _, acc => acc
  | fuel + 1, i, acc =>
      if direct.length ≤ i then acc
      else
        let b := direct.getD i 0
        if b = 0 then
          let remaining := to_read - acc.length
          if remaining = 0 then acc
          else
            readLoop disk direct bs start endp to_read first last fuel (i + 1)
              (acc ++ List.replicate (min remaining bs) 0)
        else
          let bd := (List.range QRFS_BLOCK_SIZE).map (disk b)
          let ibs := if i = first then start - i * bs else 0
          let ibe := if i = last then min (endp - i * bs) bd.length else bd.length
          let acc2 :=
            if ibs < ibe ∧ ibs < bd.length then acc ++ (bd.drop ibs).take (ibe - ibs)
            else acc
          readLoop disk direct bs start endp to_read first last fuel (i + 1) acc2

theorem readLoop_stop (disk : Nat → Nat → Nat) (direct : List Nat)
    (bs start endp to_read first last fuel i : Nat) (acc : List Nat)
    (hi : direct.length ≤ i) :
    readLoop disk direct bs start endp to_read first last (fuel + 1) i acc = acc := by
  rw [readLoop, if_pos hi]

theorem readLoop_hole_break (disk : Nat → Nat → Nat) (direct : List Nat)
    (bs start endp to_read first last fuel i : Nat) (acc : List Nat)
    (hi : i < direct.length) (hb : direct.getD i 0 = 0)
    (hr : to_read - acc.length = 0) :
    readLoop disk direct bs start endp to_read first last (fuel + 1) i acc = acc := by
  rw [readLoop, if_neg (not_le.mpr hi)]
  dsimp only
  rw [if_pos hb, if_pos hr]

theorem readLoop_hole (disk : Nat → Nat → Nat) (direct : List Nat)
    (bs start endp to_read first last fuel i : Nat) (acc : List Nat)
    (hi : i < direct.length) (hb : direct.getD i 0 = 0)
    (hr : to_read - acc.length ≠ 0) :
    readLoop disk direct bs start endp to_read first last (fuel + 1) i acc =
      readLoop disk direct bs start endp to_read first last fuel (i + 1)
        (acc ++ List.replicate (min (to_read - acc.length) bs) 0) := by
  rw [readLoop, if_neg (not_le.mpr hi)]
  dsimp only
  rw [if_pos hb, if_neg hr]

theorem readLoop_alloc (disk : Nat → Nat → Nat) (direct : List Nat)
    (bs start endp to_read first last fuel i : Nat) (acc : List Nat)
    (hi : i < direct.length) (hb : direct.getD i 0 ≠ 0)
    (hibs : (if i = first then start - i * bs else 0) <
        (if i = last then min (endp - i * bs) QRFS_BLOCK_SIZE else QRFS_BLOCK_SIZE))
    (hibs2 : (if i = first then start - i * bs else 0) < QRFS_BLOCK_SIZE) :
    readLoop disk direct bs start endp to_read first last (fuel + 1) i acc =
      readLoop disk direct bs start endp to_read first last fuel (i + 1)
        (acc ++ ((((List.range QRFS_BLOCK_SIZE).map (disk (direct.getD i 0))).drop
            (if i = first then start - i * bs else 0)).take
          ((if i = last then min (endp - i * bs) QRFS_BLOCK_SIZE else QRFS_BLOCK_SIZE) -
            (if i = first then start - i * bs else 0)))) := by
  rw [readLoop, if_neg (not_le.mpr hi)]
  dsimp only
  rw [if_neg hb]
  have hlen : ((List.range QRFS_BLOCK_SIZE).map (disk (direct.getD i 0))).length =
      QRFS_BLOCK_SIZE := by simp
  rw [hlen]
  rw [if_pos ⟨hibs, hibs2⟩]

/-- The disk branch of `read`: clip to the file size (empty past EOF), walk
the direct blocks, truncate to the clipped length. -/
def fs_read_disk (disk : Nat → Nat → Nat) (nd : InodeDisk)
    (sb : SuperblockDisk) (offset size : Nat) : List Nat :=
  if nd.size ≤ offset then []
  else
    let to_read := min size (nd.size - offset)
    let bs := sb.block_size
    let first := offset / bs
    let last := (offset + to_read - 1) / bs
    (readLoop disk nd.direct_blocks bs offset (offset + to_read) to_read first
        last (last + 1 - first) first []).take to_read

/-- The byte the mapper should deliver for file position `p`: 0 inside a hole
block, otherwise the corresponding byte of the pointed-to block. -/
def byteAt (disk : Nat → Nat → Nat) (direct : List Nat) (bs p : Nat) : Nat :=
  if direct.getD (p / bs) 0 = 0 then 0 else disk (direct.getD (p / bs) 0) (p % bs)

/-- A disk whose every byte is 1 (so zero bytes in a read provably come from
hole handling, not from the disk). -/
def onesDisk : Nat → Nat → Nat := fun _ _ => 1

/-- A 13-block file (beyond the 12 direct pointers), all direct pointers 0. -/
def capCexInode : InodeDisk :=
  { fallbackInode 3 with size := 13312 }

/-- A file whose block 0 is a hole, block 1 is allocated at disk block 5, and
block 2 is a hole again. -/
def holeCexInode : InodeDisk :=
  { fallbackInode 3 with
      size := 4096
      direct_blocks := [0, 5, 0, 0, 0, 0, 0, 0, 0, 0, 0, 0] }

/-- C8 (counterexample to the claim as stated), two defects at concrete
inputs over `onesDisk` (whose every byte is 1).  (1) Reading 100 bytes at
offset 12288 (block 12) of a 13312-byte file returns `[]` although
`min 100 (13312 − 12288) = 100`: the loop stops at the direct-array bound.
(2) Reading 2048 bytes at offset 512 over hole/allocated/hole blocks: the
first, partially-covered hole block appends `min(to_read, block_size) = 1024`
zeros instead of the 512 bytes that remain of it, shifting everything after
it — so result position 1536, which falls in the sub-range of hole block 2
and must read back as 0 by the claim, delivers byte 1 of the allocated block
instead. -/
theorem fs_read_claim_counterexample :
    fs_read_disk onesDisk capCexInode sampleSuperblock 12288 100 = [] ∧
    min 100 (capCexInode.size - 12288) = 100 ∧
    holeCexInode.direct_blocks.getD
      ((512 + 1536) / sampleSuperblock.block_size) 0 = 0 ∧
    (fs_read_disk onesDisk holeCexInode sampleSuperblock 512 2048).getD 1536 0 = 1 := by
  refine ⟨by decide, by decide, by decide, ?_⟩
  have h1 : fs_read_disk onesDisk holeCexInode sampleSuperblock 512 2048 =
      (readLoop onesDisk holeCexInode.direct_blocks 1024 512 2560 2048 0 2 3 0
        []).take 2048 := by
    unfold fs_read_disk
    norm_num [holeCexInode, fallbackInode, sampleSuperblock]
  have hd : holeCexInode.direct_blocks = [0, 5, 0, 0, 0, 0, 0, 0, 0, 0, 0, 0] := by
    decide
  rw [h1, hd]
  have h2 : readLoop onesDisk [0, 5, 0, 0, 0, 0, 0, 0, 0, 0, 0, 0] 1024 512 2560
        2048 0 2 3 0 [] =
      readLoop onesDisk [0, 5, 0, 0, 0, 0, 0, 0, 0, 0, 0, 0] 1024 512 2560 2048
        0 2 2 1 (List.replicate 1024 0) := by
    rw [readLoop_hole _ _ _ _ _ _ _ _ _ _ _ (by decide) (by decide) (by decide)]
    congr 1
  have hbt : ((((List.range QRFS_BLOCK_SIZE).map
        (onesDisk (([0, 5, 0, 0, 0, 0, 0, 0, 0, 0, 0, 0] : List Nat).getD 1 0))).drop
        (if 1 = 0 then 512 - 1 * 1024 else 0)).take
      ((if 1 = 2 then min (2560 - 1 * 1024) QRFS_BLOCK_SIZE else QRFS_BLOCK_SIZE) -
        (if 1 = 0 then 512 - 1 * 1024 else 0))) =
      (List.range QRFS_BLOCK_SIZE).map (onesDisk 5) := by
    rw [if_neg (by decide), if_neg (by decide)]
    rw [show ([0, 5, 0, 0, 0, 0, 0, 0, 0, 0, 0, 0] : List Nat).getD 1 0 = 5 from
      by decide]
    simp only [List.drop_zero, Nat.sub_zero]
    exact List.take_of_length_le (by simp)
  have h3 : readLoop onesDisk [0, 5, 0, 0, 0, 0, 0, 0, 0, 0, 0, 0] 1024 512 2560
        2048 0 2 2 1 (List.replicate 1024 0) =
      readLoop onesDisk [0, 5, 0, 0, 0, 0, 0, 0, 0, 0, 0, 0] 1024 512 2560 2048
        0 2 1 2
        (List.replicate 1024 0 ++ (List.range QRFS_BLOCK_SIZE).map (onesDisk 5)) := by
    rw [readLoop_alloc _ _ _ _ _ _ _ _ _ _ _ (by decide) (by decide) (by decide)
      (by decide)]
    rw [hbt]
  have h4 : readLoop onesDisk [0, 5, 0, 0, 0, 0, 0, 0, 0, 0, 0, 0] 1024 512 2560
        2048 0 2 1 2
        (List.replicate 1024 0 ++ (List.range QRFS_BLOCK_SIZE).map (onesDisk 5)) =
      List.replicate 1024 0 ++ (List.range QRFS_BLOCK_SIZE).map (onesDisk 5) := by
    apply readLoop_hole_break _ _ _ _ _ _ _ _ _ _ _ (by decide) (by decide)
    simp only [List.length_append, List.length_replicate, List.length_map,
      List.length_range]
    norm_num [QRFS_BLOCK_SIZE]
  rw [h2, h3, h4]
  rw [List.getD_eq_getElem?_getD, List.getElem?_take, if_pos (by norm_num)]
  rw [List.getElem?_append_right (by simp only [List.length_replicate]; norm_num)]
  rw [List.getElem?_map]
  simp only [List.length_replicate]
  rw [List.getElem?_range (by norm_num [QRFS_BLOCK_SIZE])]
  rfl

theorem readLoop_zero (disk : Nat → Nat → Nat) (direct : List Nat)
    (bs start endp to_read first last i : Nat) (acc : List Nat) :
    readLoop disk direct bs start endp to_read first last 0 i acc = acc := rfl

/-- Invariant proof for the block loop on a block-aligned read confined to the
12 direct pointers: entering iteration `i` with the bytes for file positions
`[start, min (i*1024) endp)` accumulated, the loop ends with exactly the
bytes `byteAt` prescribes for `[start, endp)`. -/
theorem readLoop_aligned (disk : Nat → Nat → Nat) (direct : List Nat)
    (start endp to_read first last : Nat)
    (hdlen : direct.length = 12)
    (hstart : start = first * 1024)
    (hlast : last = (endp - 1) / 1024)
    (hto : to_read = endp - start)
    (hcap : endp ≤ 12 * 1024)
    (hend : start < endp) :
    ∀ fuel i acc, i + fuel = last + 1 → first ≤ i →
      acc = (List.range (min (i * 1024) endp - start)).map
        (fun j => byteAt disk direct 1024 (start + j)) →
      readLoop disk direct 1024 start endp to_read first last fuel i acc =
        (List.range to_read).map (fun j => byteAt disk direct 1024 (start + j)) := by
  have h1024 : (0:Nat) < 1024 := by norm_num
  have hdm := Nat.div_add_mod (endp - 1) 1024
  have hmod := Nat.mod_lt (endp - 1) h1024
  have hlastb : last * 1024 ≤ endp - 1 ∧ endp - 1 < (last + 1) * 1024 := by
    subst hlast
    omega
  intro fuel
  induction fuel with
  | zero =>
      intro i acc hfi hfirst hacc
      obtain rfl : i = last + 1 := by omega
      rw [readLoop_zero, hacc]
      have hfin : min ((last + 1) * 1024) endp - start = to_read := by omega
      rw [hfin]
  | succ fuel ih =>
      intro i acc hfi hfirst hacc
      have hilast : i ≤ last := by omega
      have hi12 : i < 12 := by omega
      have hiend : i * 1024 < endp := by
        have h := Nat.mul_le_mul_right 1024 hilast
        omega
      have hstartle : start ≤ i * 1024 := by
        have h := Nat.mul_le_mul_right 1024 hfirst
        omega
      have hlen : acc.length = i * 1024 - start := by
        rw [hacc]
        simp only [List.length_map, List.length_range]
        omega
      have hsplit : min ((i + 1) * 1024) endp - start =
          (min (i * 1024) endp - start) + (min ((i + 1) * 1024) endp - i * 1024) := by
        omega
      by_cases hb : direct.getD i 0 = 0
      · have hrne : to_read - acc.length ≠ 0 := by
          rw [hlen]
          omega
        rw [readLoop_hole _ _ _ _ _ _ _ _ _ _ _ (by omega) hb hrne]
        apply ih (i + 1) _ (by omega) (by omega)
        have hmin2 : min (to_read - acc.length) 1024 =
            min ((i + 1) * 1024) endp - i * 1024 := by
          rw [hlen]
          omega
        rw [hmin2, hacc]
        rw [hsplit, List.range_add, List.map_append]
        congr 1
        rw [List.map_map]
        symm
        rw [List.eq_replicate_iff]
        refine ⟨by simp, ?_⟩
        intro x hx
        rcases List.mem_map.mp hx with ⟨j, hj, rfl⟩
        have hjlt : j < 1024 := by
          have := List.mem_range.mp hj
          omega
        simp only [Function.comp]
        have harg : start + (min (i * 1024) endp - start + j) = 1024 * i + j := by
          omega
        rw [harg]
        unfold byteAt
        rw [Nat.mul_add_div h1024, Nat.div_eq_of_lt hjlt, Nat.add_zero]
        rw [if_pos hb]
      · have hibs0 : (if i = first then start - i * 1024 else 0) = 0 := by
          split
          · omega
          · rfl
        rw [readLoop_alloc _ _ _ _ _ _ _ _ _ _ _ (by omega) hb
          (by rw [hibs0]; split <;> (simp only [QRFS_BLOCK_SIZE]; omega))
          (by rw [hibs0]; simp only [QRFS_BLOCK_SIZE]; omega)]
        apply ih (i + 1) _ (by omega) (by omega)
        rw [hacc, hibs0]
        have hibe : (if i = last then min (endp - i * 1024) QRFS_BLOCK_SIZE
              else QRFS_BLOCK_SIZE) =
            min ((i + 1) * 1024) endp - i * 1024 := by
          split
          · simp only [QRFS_BLOCK_SIZE]
            omega
          · rename_i hil
            have hsucc : i + 1 ≤ last := by omega
            have h2 := Nat.mul_le_mul_right 1024 hsucc
            simp only [QRFS_BLOCK_SIZE]
            omega
        rw [hibe]
        rw [hsplit, List.range_add, List.map_append]
        congr 1
        simp only [List.drop_zero, Nat.sub_zero]
        rw [← List.map_take, List.take_range]
        have hminq : ((i + 1) * 1024 ⊓ endp - i * 1024) ⊓ QRFS_BLOCK_SIZE =
            (i + 1) * 1024 ⊓ endp - i * 1024 := by
          simp only [QRFS_BLOCK_SIZE]
          omega
        rw [hminq]
        rw [List.map_map]
        apply List.map_congr_left
        intro j hj
        have hjlt : j < 1024 := by
          have := List.mem_range.mp hj
          omega
        simp only [Function.comp]
        have harg : start + (min (i * 1024) endp - start + j) = 1024 * i + j := by
          omega
        unfold byteAt
        rw [harg]
        rw [Nat.mul_add_div h1024, Nat.div_eq_of_lt hjlt, Nat.add_zero]
        rw [if_neg hb]
        rw [Nat.mul_add_mod, Nat.mod_eq_of_lt hjlt]

/-- C8 (amended): for a read with block-aligned offset whose covered range
stays within the 12 direct blocks (`min (offset+size) nd.size ≤ 12·1024`),
`read` returns `[]` past EOF and otherwise exactly
`min size (nd.size − offset)` bytes, where the byte for file position
`offset + j` is 0 if its direct pointer is 0 (a hole) and byte
`(offset+j) mod 1024` of the pointed-to block otherwise. -/
theorem fs_read_spec (disk : Nat → Nat → Nat) (nd : InodeDisk)
    (sb : SuperblockDisk) (offset size : Nat)
    (hbs : sb.block_size = QRFS_BLOCK_SIZE)
    (hdlen : nd.direct_blocks.length = 12)
    (halign : offset % QRFS_BLOCK_SIZE = 0)
    (hcap : min (offset + size) nd.size ≤ 12 * QRFS_BLOCK_SIZE) :
    fs_read_disk disk nd sb offset size =
      if nd.size ≤ offset then []
      else (List.range (min size (nd.size - offset))).map
        (fun j => byteAt disk nd.direct_blocks QRFS_BLOCK_SIZE (offset + j)) := by
  simp only [QRFS_BLOCK_SIZE] at halign hcap ⊢
  unfold fs_read_disk
  split
  · rfl
  · rename_i hlt
    push_neg at hlt
    dsimp only
    rw [hbs]
    simp only [QRFS_BLOCK_SIZE]
    by_cases h0 : min size (nd.size - offset) = 0
    · rw [h0]
      simp
    · have hdvd : (1024:Nat) ∣ offset := Nat.dvd_of_mod_eq_zero halign
      have hstart : offset = (offset / 1024) * 1024 := (Nat.div_mul_cancel hdvd).symm
      have hfl : offset / 1024 ≤
          (offset + min size (nd.size - offset) - 1) / 1024 :=
        Nat.div_le_div_right (by omega)
      have hrl := readLoop_aligned disk nd.direct_blocks offset
        (offset + min size (nd.size - offset)) (min size (nd.size - offset))
        (offset / 1024) ((offset + min size (nd.size - offset) - 1) / 1024)
        hdlen hstart rfl (by omega) (by omega) (by omega)
        ((offset + min size (nd.size - offset) - 1) / 1024 + 1 - offset / 1024)
        (offset / 1024) [] (by omega) (le_refl _) ?hacc
      case hacc =>
        have h00 : min ((offset / 1024) * 1024)
            (offset + min size (nd.size - offset)) - offset = 0 := by omega
        rw [h00]
        simp
      rw [hrl, List.take_of_length_le (by simp)]

/-- Closed instance of the amended C8 theorem: a 100-byte read at the
block-aligned offset 1024 of the hole/allocated/hole file, with every
hypothesis discharged by evaluation. -/
theorem fs_read_spec_witness :
    fs_read_disk onesDisk holeCexInode sampleSuperblock 1024 100 =
      if holeCexInode.size ≤ 1024 then []
      else (List.range (min 100 (holeCexInode.size - 1024))).map
        (fun j => byteAt onesDisk holeCexInode.direct_blocks QRFS_BLOCK_SIZE
          (1024 + j)) :=
  fs_read_spec onesDisk holeCexInode sampleSuperblock 1024 100 (by decide)
    (by decide) (by decide) (by decide)

end QRFS
